import Mathlib

/-!
Verification development for the splitans repository (ANSI-art tokenizer,
virtual terminal, SGR style model, neotex codec).

Each Go source function relevant to the verified properties is translated
into an executable Lean definition:

* the SGR style model and differential encoder (`types` package, file with
  `ColorValue`, `SGR`, `ApplyParams`, `Diff`);
* the neotex absolute/differential encoder (`internal/exporter` package:
  `SGRToNeotex`, `DiffSGRToNeotex`);
* the neotex decoder (`importer/neotex` package: `ApplyNeotexCode`,
  `SplitNeotexFormat`);
* the ANSI tokenizer (`importer/ansi` package, the module-path
  `github.com/badele/splitans` copy: `Tokenize`, `parseCSI`, `collectParams`,
  `parseText`, `parseEscape`, `parseDCS`, `parseOSC`, `parseSauce`);
* the virtual terminal (`processor` package: `writeText`, `handleC0`,
  `handleSGR`, `handleCSI`, `eraseDisplay`, `eraseLine`).

Modelling conventions, used consistently below:

* Go `uint8` fields are `Nat` values; every Go `uint8(x)` conversion site is
  rendered with `u8`, which truncates modulo 256 exactly like Go.
* Go `int` values that can interact with negative intermediate results
  (cursor coordinates) are `Int`; byte values and list indices are `Nat`.
* Go strings holding raw bytes are `List Nat` (one entry per byte); strings
  compared only as whole tokens (neotex mnemonics) are Lean `String`s.
* Go float64 percentages are modelled exactly in `ℚ`; the Go code computes
  the same ratio in floating point.
* mutation is replaced by state-passing; `s.F = v` becomes `{s with F := v}`.
* a Go `panic` from an out-of-range slice index has no Lean counterpart in a
  total function; buffer writes use `List.set`, which drops an out-of-range
  write.  Whenever a claim concerns bounds, the bound itself is stated
  explicitly, never hidden behind this totalization.
* purely descriptive fields that no code path reads (`Signification`,
  `CSINotation`, the statistics counting maps) are omitted from the
  embedding; they do not influence control flow.
-/

namespace Splitans

/-- Go `uint8(x)` conversion on a Go `int`: truncation modulo 256. -/
def u8 (z : Int) : Nat := (z % 256).toNat

/-- `ColorType` enumeration from the `types` package
(`ColorDefault`, `ColorStandard`, `ColorIndexed`, `ColorRGB`). -/
inductive ColorType where
  | ColorDefault
  | ColorStandard
  | ColorIndexed
  | ColorRGB
deriving DecidableEq, Repr

/-- `ColorValue` struct: a color tag plus `R`, `G`, `B`, `Index` component
fields (Go `uint8`).  Go compares `ColorValue`s with `==`, i.e. all fields,
including components unused by the current tag; the embedding mirrors this
with structural equality. -/
structure ColorValue where
  type : ColorType
  r : Nat := 0
  g : Nat := 0
  b : Nat := 0
  index : Nat := 0
deriving DecidableEq, Repr

/-- `ColorValue.IsDefault` from the source. -/
def ColorValue.IsDefault (c : ColorValue) : Bool := c.type = ColorType.ColorDefault

/-- `SGR` struct: foreground/background colors and the eight boolean
attributes.  `Equals` in Go compares all fields, which is structural
equality here. -/
structure SGR where
  FgColor : ColorValue
  BgColor : ColorValue
  Bold : Bool := false
  Dim : Bool := false
  Italic : Bool := false
  Underline : Bool := false
  Blink : Bool := false
  Reverse : Bool := false
  Hidden : Bool := false
  Strikethrough : Bool := false
deriving DecidableEq, Repr

/-- `NewSGR()`: the intentionally non-standard default SGR — foreground
Standard(7) (light grey), background Standard(0) (black), all attributes
off. -/
def NewSGR : SGR :=
  { FgColor := { type := ColorType.ColorStandard, index := 7 }
    BgColor := { type := ColorType.ColorStandard, index := 0 } }

/-- `(*SGR).Reset()`: sets every field back to the `NewSGR` defaults. -/
def SGR.Reset (_ : SGR) : SGR := NewSGR

/-- `(*SGR).ApplyParams(params)` from the `types` package: the SGR parameter
interpreter.  Note that in the source the only attribute-off codes handled
are `21`/`22` (bold off); `23`–`29` fall through the switch and are
ignored.

The Go code 38/48 branch calls `applyExtendedColor(color, params, i+1)`
and then skips the returned number of consumed sub-parameters; here that
call-plus-skip is inlined as a match on the remaining parameters, one
pattern per Go return path: `5, n` sets an indexed color and consumes 2;
`2, r, g, b` sets an RGB color and consumes 4; any other present selector
consumes 1 and changes nothing; an exhausted list consumes 0 (ending the
loop). -/
def SGR.ApplyParams (s : SGR) (params : List Int) : SGR :=
  match params with
  | [] => s
  | code :: rest =>
    if code = 0 then SGR.ApplyParams (s.Reset) rest
    else if code = 1 then SGR.ApplyParams { s with Bold := true } rest
    else if code = 21 ∨ code = 22 then SGR.ApplyParams { s with Bold := false } rest
    else if code = 2 then SGR.ApplyParams { s with Dim := true } rest
    else if code = 3 then SGR.ApplyParams { s with Italic := true } rest
    else if code = 4 then SGR.ApplyParams { s with Underline := true } rest
    else if code = 5 then SGR.ApplyParams { s with Blink := true } rest
    else if code = 7 then SGR.ApplyParams { s with Reverse := true } rest
    else if code = 8 then SGR.ApplyParams { s with Hidden := true } rest
    else if code = 9 then SGR.ApplyParams { s with Strikethrough := true } rest
    else if 30 ≤ code ∧ code ≤ 37 then
      SGR.ApplyParams
        { s with FgColor := { type := ColorType.ColorStandard, index := u8 (code - 30) } } rest
    else if code = 38 then
      match rest with
      | 5 :: n :: rest2 =>
        SGR.ApplyParams
          { s with FgColor := { type := ColorType.ColorIndexed, index := u8 n } } rest2
      | 2 :: rr :: gg :: bb :: rest2 =>
        SGR.ApplyParams
          { s with FgColor := { type := ColorType.ColorRGB, r := u8 rr, g := u8 gg, b := u8 bb } }
          rest2
      | _ :: rest2 => SGR.ApplyParams s rest2
      | [] => s
    else if code = 39 then
      SGR.ApplyParams { s with FgColor := { type := ColorType.ColorDefault } } rest
    else if 40 ≤ code ∧ code ≤ 47 then
      SGR.ApplyParams
        { s with BgColor := { type := ColorType.ColorStandard, index := u8 (code - 40) } } rest
    else if code = 48 then
      match rest with
      | 5 :: n :: rest2 =>
        SGR.ApplyParams
          { s with BgColor := { type := ColorType.ColorIndexed, index := u8 n } } rest2
      | 2 :: rr :: gg :: bb :: rest2 =>
        SGR.ApplyParams
          { s with BgColor := { type := ColorType.ColorRGB, r := u8 rr, g := u8 gg, b := u8 bb } }
          rest2
      | _ :: rest2 => SGR.ApplyParams s rest2
      | [] => s
    else if code = 49 then
      SGR.ApplyParams { s with BgColor := { type := ColorType.ColorDefault } } rest
    else if 90 ≤ code ∧ code ≤ 97 then
      SGR.ApplyParams
        { s with FgColor := { type := ColorType.ColorStandard, index := u8 (code - 90 + 8) } } rest
    else if 100 ≤ code ∧ code ≤ 107 then
      SGR.ApplyParams
        { s with BgColor := { type := ColorType.ColorStandard, index := u8 (code - 100 + 8) } } rest
    else SGR.ApplyParams s rest

/-- `(*SGR).hasAttributeTurnedOff(previous)`: any boolean attribute going
true→false, either color going non-Default→Default, or either color going
from bright Standard (index ≥ 8) to normal Standard or to a non-Standard
variant. -/
def SGR.hasAttributeTurnedOff (s previous : SGR) : Bool :=
  (previous.Bold && !s.Bold) ||
  (previous.Dim && !s.Dim) ||
  (previous.Italic && !s.Italic) ||
  (previous.Underline && !s.Underline) ||
  (previous.Blink && !s.Blink) ||
  (previous.Reverse && !s.Reverse) ||
  (previous.Hidden && !s.Hidden) ||
  (previous.Strikethrough && !s.Strikethrough) ||
  (!previous.FgColor.IsDefault && s.FgColor.IsDefault) ||
  (!previous.BgColor.IsDefault && s.BgColor.IsDefault) ||
  (previous.FgColor.type = ColorType.ColorStandard &&
    s.FgColor.type = ColorType.ColorStandard &&
    decide (8 ≤ previous.FgColor.index) && decide (s.FgColor.index < 8)) ||
  (previous.FgColor.type = ColorType.ColorStandard && decide (8 ≤ previous.FgColor.index) &&
    (!(s.FgColor.type = ColorType.ColorStandard) || decide (s.FgColor.index < 8))) ||
  (previous.BgColor.type = ColorType.ColorStandard &&
    s.BgColor.type = ColorType.ColorStandard &&
    decide (8 ≤ previous.BgColor.index) && decide (s.BgColor.index < 8)) ||
  (previous.BgColor.type = ColorType.ColorStandard && decide (8 ≤ previous.BgColor.index) &&
    (!(s.BgColor.type = ColorType.ColorStandard) || decide (s.BgColor.index < 8)))

/-- `(*SGR).fgColorCodesLegacy(legacyMode)`: absolute SGR codes for the
foreground color. -/
def SGR.fgColorCodesLegacy (s : SGR) (legacyMode : Bool) : List Int :=
  if s.FgColor.IsDefault then [39]
  else
    match s.FgColor.type with
    | ColorType.ColorStandard =>
      if s.FgColor.index < 8 then [30 + (s.FgColor.index : Int)]
      else if legacyMode then [1, 30 + (s.FgColor.index : Int) - 8]
      else [90 + (s.FgColor.index : Int) - 8]
    | ColorType.ColorIndexed => [38, 5, (s.FgColor.index : Int)]
    | ColorType.ColorRGB => [38, 2, (s.FgColor.r : Int), (s.FgColor.g : Int), (s.FgColor.b : Int)]
    | ColorType.ColorDefault => []

/-- `(*SGR).bgColorCodesLegacy(legacyMode)`: absolute SGR codes for the
background color. -/
def SGR.bgColorCodesLegacy (s : SGR) (legacyMode : Bool) : List Int :=
  if s.BgColor.IsDefault then [49]
  else
    match s.BgColor.type with
    | ColorType.ColorStandard =>
      if s.BgColor.index < 8 then [40 + (s.BgColor.index : Int)]
      else if legacyMode then [1, 40 + (s.BgColor.index : Int) - 8]
      else [100 + (s.BgColor.index : Int) - 8]
    | ColorType.ColorIndexed => [48, 5, (s.BgColor.index : Int)]
    | ColorType.ColorRGB => [48, 2, (s.BgColor.r : Int), (s.BgColor.g : Int), (s.BgColor.b : Int)]
    | ColorType.ColorDefault => []

/-- `(*SGR).toFullCodesLegacy(legacyMode)`: all active attribute codes,
booleans first in the fixed order 1,2,3,4,5,7,8,9, then foreground, then
background; in legacy mode bold is left to the bright-foreground encoding. -/
def SGR.toFullCodesLegacy (s : SGR) (legacyMode : Bool) : List Int :=
  (if s.Bold = true ∧
      ¬(legacyMode = true ∧ s.FgColor.IsDefault = false ∧
        s.FgColor.type = ColorType.ColorStandard ∧ 8 ≤ s.FgColor.index) then
      [(1 : Int)] else []) ++
  (if s.Dim then [(2 : Int)] else []) ++
  (if s.Italic then [(3 : Int)] else []) ++
  (if s.Underline then [(4 : Int)] else []) ++
  (if s.Blink then [(5 : Int)] else []) ++
  (if s.Reverse then [(7 : Int)] else []) ++
  (if s.Hidden then [(8 : Int)] else []) ++
  (if s.Strikethrough then [(9 : Int)] else []) ++
  (if !s.FgColor.IsDefault then s.fgColorCodesLegacy legacyMode else []) ++
  (if !s.BgColor.IsDefault then s.bgColorCodesLegacy legacyMode else [])

/-- `(*SGR).Diff(previous, legacyMode)`: the differential SGR encoder.
`previous = none` renders the Go `nil` pointer. -/
def SGR.Diff (s : SGR) (previous : Option SGR) (legacyMode : Bool) : List Int :=
  match previous with
  | none => s.toFullCodesLegacy legacyMode
  | some prev =>
    if s = prev then []
    else if s = NewSGR then [0]
    else if legacyMode = true ∧ s.hasAttributeTurnedOff prev = true then
      0 :: s.toFullCodesLegacy legacyMode
    else
      (if s.Bold ≠ prev.Bold ∧
          ¬(legacyMode = true ∧ s.FgColor ≠ prev.FgColor ∧ s.FgColor.IsDefault = false ∧
            s.FgColor.type = ColorType.ColorStandard ∧ 8 ≤ s.FgColor.index) then
          (if s.Bold then [(1 : Int)] else [(22 : Int)]) else []) ++
      (if s.Dim ≠ prev.Dim then (if s.Dim then [(2 : Int)] else [(22 : Int)]) else []) ++
      (if s.Italic ≠ prev.Italic then (if s.Italic then [(3 : Int)] else [(23 : Int)]) else []) ++
      (if s.Underline ≠ prev.Underline then
          (if s.Underline then [(4 : Int)] else [(24 : Int)]) else []) ++
      (if s.Blink ≠ prev.Blink then (if s.Blink then [(5 : Int)] else [(25 : Int)]) else []) ++
      (if s.Reverse ≠ prev.Reverse then
          (if s.Reverse then [(7 : Int)] else [(27 : Int)]) else []) ++
      (if s.Hidden ≠ prev.Hidden then (if s.Hidden then [(8 : Int)] else [(28 : Int)]) else []) ++
      (if s.Strikethrough ≠ prev.Strikethrough then
          (if s.Strikethrough then [(9 : Int)] else [(29 : Int)]) else []) ++
      (if s.FgColor ≠ prev.FgColor then s.fgColorCodesLegacy legacyMode else []) ++
      (if s.BgColor ≠ prev.BgColor then s.bgColorCodesLegacy legacyMode else [])

/-! ## Neotex encoder (`internal/exporter` package) -/

/-- `neotexFgColors` table: normal foreground mnemonics 0–7 (lowercase)
followed by bright 8–15 (uppercase). -/
def neotexFgColors : List String :=
  ["Fk", "Fr", "Fg", "Fy", "Fb", "Fm", "Fc", "Fw",
   "FK", "FR", "FG", "FY", "FB", "FM", "FC", "FW"]

/-- `neotexBgColors` table: only the eight normal background mnemonics. -/
def neotexBgColors : List String :=
  ["Bk", "Br", "Bg", "By", "Bb", "Bm", "Bc", "Bw"]

/-- Hex digit (uppercase), for the Go `%02X` format verb. -/
def hexDigit (d : Nat) : Char :=
  if d < 10 then Char.ofNat (48 + d) else Char.ofNat (65 + (d - 10))

/-- Go `fmt.Sprintf("%02X", n)` for a `uint8` value. -/
def hex2 (n : Nat) : String :=
  String.mk [hexDigit (n / 16 % 16), hexDigit (n % 16)]

/-- `SGRToNeotex(sgr)`: absolute neotex code list — foreground (brightened
by bold for standard colors), background, then the effect mnemonics
`EM EI EU EB ER`.  A `Default` color emits nothing; a standard background
index ≥ 8 also emits nothing (the table has only 8 entries). -/
def SGRToNeotex (sgr : SGR) : List String :=
  (match sgr.FgColor.type with
   | ColorType.ColorStandard =>
     let colorIndex := if sgr.Bold && sgr.FgColor.index < 8
                       then sgr.FgColor.index + 8 else sgr.FgColor.index
     if colorIndex < neotexFgColors.length then [neotexFgColors.getD colorIndex ""] else []
   | ColorType.ColorRGB =>
     ["F" ++ hex2 sgr.FgColor.r ++ hex2 sgr.FgColor.g ++ hex2 sgr.FgColor.b]
   | ColorType.ColorIndexed => ["F" ++ toString sgr.FgColor.index]
   | ColorType.ColorDefault => []) ++
  (match sgr.BgColor.type with
   | ColorType.ColorStandard =>
     if sgr.BgColor.index < neotexBgColors.length
     then [neotexBgColors.getD sgr.BgColor.index ""] else []
   | ColorType.ColorRGB =>
     ["B" ++ hex2 sgr.BgColor.r ++ hex2 sgr.BgColor.g ++ hex2 sgr.BgColor.b]
   | ColorType.ColorIndexed => ["B" ++ toString sgr.BgColor.index]
   | ColorType.ColorDefault => []) ++
  (if sgr.Dim then ["EM"] else []) ++
  (if sgr.Italic then ["EI"] else []) ++
  (if sgr.Underline then ["EU"] else []) ++
  (if sgr.Blink then ["EB"] else []) ++
  (if sgr.Reverse then ["ER"] else [])

/-- `fgColorToNeotex(sgr)`: the foreground part of the absolute encoding. -/
def fgColorToNeotex (sgr : SGR) : List String :=
  match sgr.FgColor.type with
  | ColorType.ColorStandard =>
    let colorIndex := if sgr.Bold && sgr.FgColor.index < 8
                      then sgr.FgColor.index + 8 else sgr.FgColor.index
    if colorIndex < neotexFgColors.length then [neotexFgColors.getD colorIndex ""] else []
  | ColorType.ColorRGB =>
    ["F" ++ hex2 sgr.FgColor.r ++ hex2 sgr.FgColor.g ++ hex2 sgr.FgColor.b]
  | ColorType.ColorIndexed => ["F" ++ toString sgr.FgColor.index]
  | ColorType.ColorDefault => []

/-- `bgColorToNeotex(sgr)`: the background part of the absolute encoding. -/
def bgColorToNeotex (sgr : SGR) : List String :=
  match sgr.BgColor.type with
  | ColorType.ColorStandard =>
    if sgr.BgColor.index < neotexBgColors.length
    then [neotexBgColors.getD sgr.BgColor.index ""] else []
  | ColorType.ColorRGB =>
    ["B" ++ hex2 sgr.BgColor.r ++ hex2 sgr.BgColor.g ++ hex2 sgr.BgColor.b]
  | ColorType.ColorIndexed => ["B" ++ toString sgr.BgColor.index]
  | ColorType.ColorDefault => []

/-- The `needsReset` computation inside `DiffSGRToNeotex`: a bright→normal
or bright→non-standard transition on either color, or one of the five
effect booleans dim/italic/underline/blink/reverse going true→false.
Bold, hidden and strikethrough turn-offs and non-Default→Default color
changes are not checked here. -/
def neotexNeedsReset (current previous : SGR) : Bool :=
  (previous.FgColor.type = ColorType.ColorStandard &&
    current.FgColor.type = ColorType.ColorStandard &&
    decide (8 ≤ previous.FgColor.index) && decide (current.FgColor.index < 8)) ||
  (previous.FgColor.type = ColorType.ColorStandard && decide (8 ≤ previous.FgColor.index) &&
    (!(current.FgColor.type = ColorType.ColorStandard) || decide (current.FgColor.index < 8))) ||
  (previous.BgColor.type = ColorType.ColorStandard &&
    current.BgColor.type = ColorType.ColorStandard &&
    decide (8 ≤ previous.BgColor.index) && decide (current.BgColor.index < 8)) ||
  (previous.BgColor.type = ColorType.ColorStandard && decide (8 ≤ previous.BgColor.index) &&
    (!(current.BgColor.type = ColorType.ColorStandard) || decide (current.BgColor.index < 8))) ||
  (previous.Dim && !current.Dim) ||
  (previous.Italic && !current.Italic) ||
  (previous.Underline && !current.Underline) ||
  (previous.Blink && !current.Blink) ||
  (previous.Reverse && !current.Reverse)

/-- `DiffSGRToNeotex(current, previous)`: the neotex differential encoder
(`internal/exporter`).  `previous = none` renders the Go `nil`. -/
def DiffSGRToNeotex (current : SGR) (previous : Option SGR) : List String :=
  match previous with
  | none => SGRToNeotex current
  | some prev =>
    if current = prev then []
    else if current = NewSGR then ["R0"]
    else if neotexNeedsReset current prev then
      "R0" :: (SGRToNeotex current).filter (fun c => c ≠ "R0")
    else
      (if current.Dim && !prev.Dim then ["EM"] else []) ++
      (if current.Italic && !prev.Italic then ["EI"] else []) ++
      (if current.Underline && !prev.Underline then ["EU"] else []) ++
      (if current.Blink && !prev.Blink then ["EB"] else []) ++
      (if current.Reverse && !prev.Reverse then ["ER"] else []) ++
      (if (current.FgColor ≠ prev.FgColor) ∨
          (current.Bold ≠ prev.Bold ∧ current.FgColor.type = ColorType.ColorStandard) then
        fgColorToNeotex current else []) ++
      (if current.BgColor ≠ prev.BgColor then bgColorToNeotex current else [])

/-! ## Neotex decoder (`importer/neotex` package) -/

/-- A standard color value with zeroed component fields, as the decoder
builds them (`types.ColorValue{Type: types.ColorStandard, Index: i}`). -/
def stdColor (i : Nat) : ColorValue := { type := ColorType.ColorStandard, index := i }

/-- The `neotexToSGRModifier` map, as a function from the mnemonic to the
modifier it holds (`none` for keys absent from the map).  Note `FD` maps to
Standard(7) and `BD` to Standard(0) — the components of the non-standard
default SGR — not to the `Default` color variant. -/
def neotexToSGRModifier (code : String) : Option (SGR → SGR) :=
  match code with
  | "R0" => some (fun s => s.Reset)
  | "Fk" => some (fun s => { s with FgColor := stdColor 0 })
  | "Fr" => some (fun s => { s with FgColor := stdColor 1 })
  | "Fg" => some (fun s => { s with FgColor := stdColor 2 })
  | "Fy" => some (fun s => { s with FgColor := stdColor 3 })
  | "Fb" => some (fun s => { s with FgColor := stdColor 4 })
  | "Fm" => some (fun s => { s with FgColor := stdColor 5 })
  | "Fc" => some (fun s => { s with FgColor := stdColor 6 })
  | "Fw" => some (fun s => { s with FgColor := stdColor 7 })
  | "FK" => some (fun s => { s with FgColor := stdColor 8 })
  | "FR" => some (fun s => { s with FgColor := stdColor 9 })
  | "FG" => some (fun s => { s with FgColor := stdColor 10 })
  | "FY" => some (fun s => { s with FgColor := stdColor 11 })
  | "FB" => some (fun s => { s with FgColor := stdColor 12 })
  | "FM" => some (fun s => { s with FgColor := stdColor 13 })
  | "FC" => some (fun s => { s with FgColor := stdColor 14 })
  | "FW" => some (fun s => { s with FgColor := stdColor 15 })
  | "FD" => some (fun s => { s with FgColor := stdColor 7 })
  | "Bk" => some (fun s => { s with BgColor := stdColor 0 })
  | "Br" => some (fun s => { s with BgColor := stdColor 1 })
  | "Bg" => some (fun s => { s with BgColor := stdColor 2 })
  | "By" => some (fun s => { s with BgColor := stdColor 3 })
  | "Bb" => some (fun s => { s with BgColor := stdColor 4 })
  | "Bm" => some (fun s => { s with BgColor := stdColor 5 })
  | "Bc" => some (fun s => { s with BgColor := stdColor 6 })
  | "Bw" => some (fun s => { s with BgColor := stdColor 7 })
  | "BK" => some (fun s => { s with BgColor := stdColor 8 })
  | "BR" => some (fun s => { s with BgColor := stdColor 9 })
  | "BG" => some (fun s => { s with BgColor := stdColor 10 })
  | "BY" => some (fun s => { s with BgColor := stdColor 11 })
  | "BB" => some (fun s => { s with BgColor := stdColor 12 })
  | "BM" => some (fun s => { s with BgColor := stdColor 13 })
  | "BC" => some (fun s => { s with BgColor := stdColor 14 })
  | "BW" => some (fun s => { s with BgColor := stdColor 15 })
  | "BD" => some (fun s => { s with BgColor := stdColor 0 })
  | "EM" => some (fun s => { s with Dim := true })
  | "Em" => some (fun s => { s with Dim := false })
  | "EI" => some (fun s => { s with Italic := true })
  | "Ei" => some (fun s => { s with Italic := false })
  | "EU" => some (fun s => { s with Underline := true })
  | "Eu" => some (fun s => { s with Underline := false })
  | "EB" => some (fun s => { s with Blink := true })
  | "Eb" => some (fun s => { s with Blink := false })
  | "ER" => some (fun s => { s with Reverse := true })
  | "Er" => some (fun s => { s with Reverse := false })
  | _ => none

/-- Value of one hexadecimal digit, `none` for a non-digit
(Go `strconv.ParseUint(.., 16, 32)` accepts both cases). -/
def hexDigitVal (c : Char) : Option Nat :=
  if '0' ≤ c ∧ c ≤ '9' then some (c.toNat - 48)
  else if 'a' ≤ c ∧ c ≤ 'f' then some (c.toNat - 97 + 10)
  else if 'A' ≤ c ∧ c ≤ 'F' then some (c.toNat - 65 + 10)
  else none

/-- Hexadecimal value of a digit list (none on a bad digit or empty input),
following `strconv.ParseUint(hexStr, 16, 32)`. -/
def parseHexNat : List Char → Option Nat
  | [] => none
  | cs => cs.foldl
      (fun acc c => match acc, hexDigitVal c with
        | some v, some d => some (v * 16 + d)
        | _, _ => none)
      (some 0)

/-- `parseRGBHex(hexStr)`: six hex characters `RRGGBB` to components. -/
def parseRGBHex (hexStr : List Char) : Option (Nat × Nat × Nat) :=
  if hexStr.length ≠ 6 then none
  else
    match parseHexNat hexStr with
    | none => none
    | some rgb => some (rgb / 65536 % 256, rgb / 256 % 256, rgb % 256)

/-- Go `strconv.Atoi`: optional sign, then one or more decimal digits. -/
def goAtoiChars (cs : List Char) : Option Int :=
  match cs with
  | [] => none
  | '+' :: ds =>
    if ds ≠ [] ∧ ds.all (fun c => '0' ≤ c ∧ c ≤ '9')
    then some ((ds.foldl (fun acc c => acc * 10 + (c.toNat - 48)) 0 : Nat) : Int) else none
  | '-' :: ds =>
    if ds ≠ [] ∧ ds.all (fun c => '0' ≤ c ∧ c ≤ '9')
    then some (-((ds.foldl (fun acc c => acc * 10 + (c.toNat - 48)) 0 : Nat) : Int)) else none
  | ds =>
    if ds.all (fun c => '0' ≤ c ∧ c ≤ '9')
    then some ((ds.foldl (fun acc c => acc * 10 + (c.toNat - 48)) 0 : Nat) : Int) else none

/-- `ApplyNeotexCode(code, sgr)`: table lookup first, then the 7-character
RGB form `FRRGGBB`/`BRRGGBB`, then the 2–4 character indexed form
`Fnnn`/`Bnnn` with a 0–255 range check; anything else leaves the SGR
unchanged. -/
def ApplyNeotexCode (code : String) (sgr : SGR) : SGR :=
  match neotexToSGRModifier code with
  | some modifier => modifier sgr
  | none =>
    let cs := code.data
    if cs.length = 7 ∧ (cs.headD ' ' = 'F' ∨ cs.headD ' ' = 'B') then
      match parseRGBHex (cs.drop 1) with
      | some (rr, gg, bb) =>
        let color : ColorValue := { type := ColorType.ColorRGB, r := rr, g := gg, b := bb }
        if cs.headD ' ' = 'F' then { sgr with FgColor := color }
        else { sgr with BgColor := color }
      | none => sgr
    else if (2 ≤ cs.length ∧ cs.length ≤ 4) ∧ (cs.headD ' ' = 'F' ∨ cs.headD ' ' = 'B') then
      match goAtoiChars (cs.drop 1) with
      | some idx =>
        if 0 ≤ idx ∧ idx ≤ 255 then
          let color : ColorValue := { type := ColorType.ColorIndexed, index := u8 idx }
          if cs.headD ' ' = 'F' then { sgr with FgColor := color }
          else { sgr with BgColor := color }
        else sgr
      | none => sgr
    else sgr

/-- `strings.Split(data, "\n")` on a rune list: the list of segments
between newline characters (one more segment than there are newlines). -/
def splitLines : List Char → List (List Char)
  | [] => [[]]
  | c :: rest =>
    match splitLines rest with
    | [] => [[c]]
    | l :: ls => if c = '\n' then [] :: l :: ls else (c :: l) :: ls

/-- The diagnostic `SplitNeotexFormat` prints before `os.Exit(1)`:
separator position, the runes actually found there, and the line number. -/
structure NeotexSplitError where
  position : Nat
  found : List Char
  lineNumber : Nat
deriving DecidableEq, Repr

/-- The per-line loop of `SplitNeotexFormat`: a line shorter than
`width + 3` runes breaks out of the loop (returning what was accumulated so
far and dropping that line and all later ones); a long line whose runes
`[width, width+3)` are not `" | "` is fatal (`os.Exit(1)`, modelled as
`Except.error`); otherwise the first `width` runes go to the text column
and the runes after the separator to the sequence column. -/
def splitNeotexLines (width : Nat) (n : Nat) :
    List (List Char) → Except NeotexSplitError (List (List Char) × List (List Char))
  | [] => Except.ok ([], [])
  | line :: rest =>
    if line.length < width + 3 then Except.ok ([], [])
    else
      let actualSep := (line.drop width).take 3
      if actualSep ≠ [' ', '|', ' '] then Except.error ⟨width, actualSep, n⟩
      else
        match splitNeotexLines width (n + 1) rest with
        | Except.ok (ts, ss) =>
          Except.ok (line.take width :: ts, line.drop (width + 3) :: ss)
        | Except.error e => Except.error e

/-- `SplitNeotexFormat(width, data)`: split on newlines, then run the
per-line loop. -/
def SplitNeotexFormat (width : Nat) (data : List Char) :
    Except NeotexSplitError (List (List Char) × List (List Char)) :=
  splitNeotexLines width 0 (splitLines data)

/-! ## ANSI tokenizer (`importer/ansi` package, module-path copy with rune
positions).  Bytes are `Nat`s; `raw` fields hold the exact consumed byte
slices. -/

/-- `TokenType` constants, in source order (the source spells
`TokenCSIInterupted` with one r). -/
inductive TokenType where
  | TokenText
  | TokenC0
  | TokenC1
  | TokenCSI
  | TokenCSIInterupted
  | TokenSGR
  | TokenDCS
  | TokenOSC
  | TokenEscape
  | TokenSauce
  | TokenUnknown
deriving DecidableEq, Repr

/-- `types.Token`.  `raw` and `value` are byte lists, `parameters` a list of
parameter byte-strings.  The purely descriptive `CSINotation` and
`Signification` strings are omitted (nothing reads them). -/
structure Token where
  type : TokenType
  pos : Nat := 0
  raw : List Nat := []
  value : List Nat := []
  parameters : List (List Nat) := []
  c0Code : Nat := 0
  c1Code : String := ""
deriving DecidableEq, Repr

/-- Go `utf8.DecodeRune`: scalar value and encoded size; invalid or
truncated input yields `(0xFFFD, 1)` (and `(0xFFFD, 0)` on empty input,
which the tokenizer never does). -/
def utf8DecodeRune : List Nat → Nat × Nat
  | [] => (0xFFFD, 0)
  | b0 :: rest =>
    if b0 < 0x80 then (b0, 1)
    else if b0 < 0xC2 then (0xFFFD, 1)
    else if b0 ≤ 0xDF then
      match rest with
      | b1 :: _ =>
        if 0x80 ≤ b1 ∧ b1 ≤ 0xBF then ((b0 - 0xC0) * 64 + (b1 - 0x80), 2) else (0xFFFD, 1)
      | [] => (0xFFFD, 1)
    else if b0 ≤ 0xEF then
      match rest with
      | b1 :: b2 :: _ =>
        if (if b0 = 0xE0 then 0xA0 else 0x80) ≤ b1 ∧ b1 ≤ (if b0 = 0xED then 0x9F else 0xBF) ∧
            0x80 ≤ b2 ∧ b2 ≤ 0xBF then
          ((b0 - 0xE0) * 4096 + (b1 - 0x80) * 64 + (b2 - 0x80), 3)
        else (0xFFFD, 1)
      | _ => (0xFFFD, 1)
    else if b0 ≤ 0xF4 then
      match rest with
      | b1 :: b2 :: b3 :: _ =>
        if (if b0 = 0xF0 then 0x90 else 0x80) ≤ b1 ∧ b1 ≤ (if b0 = 0xF4 then 0x8F else 0xBF) ∧
            0x80 ≤ b2 ∧ b2 ≤ 0xBF ∧ 0x80 ≤ b3 ∧ b3 ≤ 0xBF then
          ((b0 - 0xF0) * 262144 + (b1 - 0x80) * 4096 + (b2 - 0x80) * 64 + (b3 - 0x80), 4)
        else (0xFFFD, 1)
      | _ => (0xFFFD, 1)
    else (0xFFFD, 1)

/-- The scan loop of `parseText` with explicit fuel (structural recursion,
so the kernel can evaluate it): bytes and runes consumed while the next
byte is `≥ 0x20`, stepping by UTF-8 rune size.  The rune size is at least 1
on nonempty input, so recursing on `rest.drop (size - 1)` matches dropping
`size` bytes from `b :: rest`, and fuel equal to the byte count always
suffices. -/
def textRunAux : Nat → List Nat → Nat × Nat
  | 0, _ => (0, 0)
  | _ + 1, [] => (0, 0)
  | fuel + 1, b :: rest =>
    if b < 0x20 then (0, 0)
    else
      let size := (utf8DecodeRune (b :: rest)).2
      let r := textRunAux fuel (rest.drop (size - 1))
      (size.max 1 + r.1, 1 + r.2)

/-- The scan loop of `parseText`: bytes and runes consumed. -/
def textRun (input : List Nat) : Nat × Nat := textRunAux input.length input

/-- `collectParams` (module-path copy): digits accumulate, every `;` or `:`
flushes the current buffer — empty or not — into the parameter list, the
marker bytes `? > ! $ ' " SPACE` are skipped, anything else ends the scan.
Returns the parameters and the number of bytes consumed. -/
def collectParams : List Nat → List Nat → List (List Nat) → List (List Nat) × Nat
  | [], current, acc => (if 0 < current.length then acc ++ [current] else acc, 0)
  | b :: rest, current, acc =>
    if 48 ≤ b ∧ b ≤ 57 then
      let r := collectParams rest (current ++ [b]) acc
      (r.1, r.2 + 1)
    else if b = 59 ∨ b = 58 then
      let r := collectParams rest [] (acc ++ [current])
      (r.1, r.2 + 1)
    else if b = 63 ∨ b = 62 ∨ b = 33 ∨ b = 36 ∨ b = 39 ∨ b = 34 ∨ b = 32 then
      let r := collectParams rest current acc
      (r.1, r.2 + 1)
    else (if 0 < current.length then acc ++ [current] else acc, 0)

/-- One tokenizer step: the produced token, the bytes consumed, and the new
rune position. -/
structure NextTok where
  tok : Token
  consumed : Nat
  newRunePos : Nat
deriving Repr

/-- `parseCSI`: collect parameters after `ESC [`; a run-off-the-end
sequence yields a best-effort CSI token; a final byte `< 0x20` yields
`TokenCSIInterupted`; otherwise the final byte selects the type —
`A B C D H J s u` keep `TokenCSI`, `m` becomes `TokenSGR`, everything else
(including `K` and `f`) becomes `TokenUnknown`. -/
def parseCSIStep (runePos : Nat) (remaining : List Nat) : NextTok :=
  let sub := remaining.drop 2
  let cp := collectParams sub [] []
  if cp.2 = sub.length then
    { tok := { type := TokenType.TokenCSI, pos := runePos, raw := remaining.take (2 + cp.2) }
      consumed := 2 + cp.2
      newRunePos := runePos + (2 + cp.2) }
  else
    let final := sub.getD cp.2 0
    let consumed := 2 + cp.2 + 1
    let base : Token :=
      { type := TokenType.TokenCSI, pos := runePos, raw := remaining.take consumed
        parameters := cp.1 }
    let tok :=
      if final < 0x20 then { base with type := TokenType.TokenCSIInterupted }
      else if final = 65 ∨ final = 66 ∨ final = 67 ∨ final = 68 ∨ final = 72 ∨ final = 74 ∨
          final = 115 ∨ final = 117 then base
      else if final = 109 then { base with type := TokenType.TokenSGR }
      else { base with type := TokenType.TokenUnknown }
    { tok := tok, consumed := consumed, newRunePos := runePos + consumed }

/-- The scan loop of `parseDCS`: bytes consumed from the data region and
the accumulated data, stopping after `ESC \` or `0x9C`. -/
def dcsScan : List Nat → Nat × List Nat
  | [] => (0, [])
  | b :: rest =>
    if b = 0x1B ∧ rest ≠ [] ∧ rest.headD 0 = 92 then (2, [])
    else if b = 0x9C then (1, [])
    else
      let r := dcsScan rest
      (r.1 + 1, b :: r.2)

/-- The scan loop of `parseOSC`: like `dcsScan` but `BEL` (0x07) also
terminates. -/
def oscScan : List Nat → Nat × List Nat
  | [] => (0, [])
  | b :: rest =>
    if b = 7 then (1, [])
    else if b = 0x1B ∧ rest ≠ [] ∧ rest.headD 0 = 92 then (2, [])
    else if b = 0x9C then (1, [])
    else
      let r := oscScan rest
      (r.1 + 1, b :: r.2)

/-- `strings.SplitN(data, ";", 2)` as used by `parseOSC`: the part before
the first `;` and, when a `;` exists, the remainder. -/
def splitOnceSemicolon : List Nat → List Nat × Option (List Nat)
  | [] => ([], none)
  | b :: rest =>
    if b = 59 then ([], some rest)
    else
      let r := splitOnceSemicolon rest
      (b :: r.1, r.2)

/-- `parseDCS` (after `ESC P`, 2 bytes consumed). -/
def parseDCSStep (runePos : Nat) (remaining : List Nat) : NextTok :=
  let r := dcsScan (remaining.drop 2)
  let consumed := 2 + r.1
  { tok := { type := TokenType.TokenDCS, pos := runePos, raw := remaining.take consumed
             value := r.2 }
    consumed := consumed
    newRunePos := runePos + consumed }

/-- `parseOSC` (after `ESC ]`): scan, then split the data once on `;`. -/
def parseOSCStep (runePos : Nat) (remaining : List Nat) : NextTok :=
  let r := oscScan (remaining.drop 2)
  let consumed := 2 + r.1
  let sp := splitOnceSemicolon r.2
  let params := match sp.2 with
    | none => [sp.1]
    | some tail => [sp.1, tail]
  { tok := { type := TokenType.TokenOSC, pos := runePos, raw := remaining.take consumed
             value := r.2, parameters := params }
    consumed := consumed
    newRunePos := runePos + consumed }

/-- `parseOtherEscape`: `ESC x`, consuming one extra byte after `(`, `)` or
`#` when present. -/
def parseOtherEscapeStep (runePos : Nat) (remaining : List Nat) : NextTok :=
  match remaining with
  | [_] =>
    { tok := { type := TokenType.TokenEscape, pos := runePos, raw := remaining.take 1 }
      consumed := 1, newRunePos := runePos + 1 }
  | _ :: next :: rest2 =>
    let consumed := if (next = 40 ∨ next = 41 ∨ next = 35) ∧ rest2 ≠ [] then 3 else 2
    { tok := { type := TokenType.TokenEscape, pos := runePos, raw := remaining.take consumed }
      consumed := consumed, newRunePos := runePos + consumed }
  | [] =>
    { tok := { type := TokenType.TokenEscape, pos := runePos }, consumed := 0
      newRunePos := runePos }

/-- `parseEscape`: dispatch on the byte after `ESC` through the
`C1Sequences` table (`[` CSI, `P` DCS, `]` OSC, `\` ST, `D E H M` plain C1),
falling back to `parseOtherEscape`. -/
def parseEscapeStep (runePos : Nat) (remaining : List Nat) : NextTok :=
  match remaining with
  | [_] =>
    { tok := { type := TokenType.TokenEscape, pos := runePos, raw := remaining.take 1 }
      consumed := 1, newRunePos := runePos + 1 }
  | _ :: next :: _ =>
    if next = 91 then parseCSIStep runePos remaining
    else if next = 80 then parseDCSStep runePos remaining
    else if next = 93 then parseOSCStep runePos remaining
    else if next = 92 then
      { tok := { type := TokenType.TokenC1, pos := runePos, raw := remaining.take 2
                 c1Code := "ST" }
        consumed := 2, newRunePos := runePos + 2 }
    else if next = 68 ∨ next = 69 ∨ next = 72 ∨ next = 77 then
      { tok := { type := TokenType.TokenC1, pos := runePos, raw := remaining.take 2
                 c1Code := if next = 68 then "IND" else if next = 69 then "NEL"
                           else if next = 72 then "HTS" else "RI" }
        consumed := 2, newRunePos := runePos + 2 }
    else parseOtherEscapeStep runePos remaining
  | [] =>
    { tok := { type := TokenType.TokenEscape, pos := runePos }, consumed := 0
      newRunePos := runePos }

/-- `parseSauce`: skip the `0x1A` byte, emit one Sauce token carrying the
remaining bytes, advance to the end of the input (the Go code records the
post-marker byte position in `Pos` and sets the rune position to the byte
length). -/
def parseSauceStep (pos : Nat) (remaining : List Nat) : NextTok :=
  { tok := { type := TokenType.TokenSauce, pos := pos + 1, raw := remaining.drop 1 }
    consumed := remaining.length
    newRunePos := pos + remaining.length }

/-- `nextToken` dispatch: `0x1B` escape, `0x1A` Sauce, other bytes `< 0x20`
single-byte C0, anything else a text run. -/
def nextTokenStep (pos runePos : Nat) (remaining : List Nat) : NextTok :=
  match remaining with
  | [] => { tok := { type := TokenType.TokenText }, consumed := 0, newRunePos := runePos }
  | c :: _ =>
    if c < 0x20 then
      if c = 0x1B then parseEscapeStep runePos remaining
      else if c = 0x1A then parseSauceStep pos remaining
      else
        { tok := { type := TokenType.TokenC0, pos := runePos, raw := [c], c0Code := c }
          consumed := 1, newRunePos := runePos + 1 }
    else
      let r := textRun remaining
      { tok := { type := TokenType.TokenText, pos := runePos, raw := remaining.take r.1
                 value := remaining.take r.1 }
        consumed := r.1, newRunePos := runePos + r.2 }

/-- Tokenizer loop state (`Tokenizer` struct fields that evolve during the
scan; `posFirstBad` is the running `Stats.PosFirstBadSequence`). -/
structure TokState where
  tokens : List Token := []
  pos : Nat := 0
  runePos : Nat := 0
  posFirstBad : Nat := 0
deriving Repr

/-- The `Tokenize` loop: produce tokens until the input is exhausted,
stopping immediately after a `TokenCSIInterupted` is appended (the Go loop
checks the last appended token).  Fuel bounds the recursion; every step of
the real tokenizer consumes at least one byte, so `input.length` fuel is
always enough. -/
def tokenizeLoop : Nat → List Nat → TokState → TokState
  | 0, _, st => st
  | _ + 1, [], st => st
  | fuel + 1, c :: rest, st =>
    let r := nextTokenStep st.pos st.runePos (c :: rest)
    let st' : TokState :=
      { tokens := st.tokens ++ [r.tok]
        pos := st.pos + r.consumed
        runePos := r.newRunePos
        posFirstBad :=
          if r.tok.type = TokenType.TokenCSIInterupted then st.pos + r.consumed
          else st.posFirstBad }
    if r.tok.type = TokenType.TokenCSIInterupted then st'
    else tokenizeLoop fuel ((c :: rest).drop r.consumed) st'

/-- `types.TokenStats`, restricted to the fields any claim reads.  The
counting maps (`TokensByType`, `SGRCodes`, …) and text-length totals are
omitted; `parsedPercent` is exact rational arithmetic where Go uses
float64. -/
structure TokenStats where
  fileSize : Nat
  parsedPercent : ℚ
  posFirstBadSequence : Nat
deriving Repr

/-- `(*Tokenizer).Tokenize()`: run the loop; on a `TokenCSIInterupted` halt
record `parsedPercent = posFirstBadSequence / fileSize * 100` and return the
partial token list, otherwise finish with `parsedPercent = 100`. -/
def Tokenize (input : List Nat) : List Token × TokenStats :=
  let st := tokenizeLoop input.length input {}
  let halted : Bool :=
    match st.tokens.getLast? with
    | some t => decide (t.type = TokenType.TokenCSIInterupted)
    | none => false
  if halted then
    (st.tokens,
      { fileSize := input.length
        parsedPercent := (st.posFirstBad : ℚ) / (input.length : ℚ) * 100
        posFirstBadSequence := st.posFirstBad })
  else
    (st.tokens,
      { fileSize := input.length, parsedPercent := 100, posFirstBadSequence := st.posFirstBad })

/-! ## Virtual terminal (`processor/virtualterminal.go`) -/

/-- Go `strconv.Atoi` on a parameter byte-string (ASCII digits with an
optional sign). -/
def goAtoiBytes (bs : List Nat) : Option Int :=
  match bs with
  | [] => none
  | 43 :: ds =>
    if ds ≠ [] ∧ ds.all (fun b => 48 ≤ b ∧ b ≤ 57)
    then some ((ds.foldl (fun acc b => acc * 10 + (b - 48)) 0 : Nat) : Int) else none
  | 45 :: ds =>
    if ds ≠ [] ∧ ds.all (fun b => 48 ≤ b ∧ b ≤ 57)
    then some (-((ds.foldl (fun acc b => acc * 10 + (b - 48)) 0 : Nat) : Int)) else none
  | ds =>
    if ds.all (fun b => 48 ≤ b ∧ b ≤ 57)
    then some ((ds.foldl (fun acc b => acc * 10 + (b - 48)) 0 : Nat) : Int) else none

/-- The rune sequence of a byte string with explicit fuel (structural
recursion; fuel equal to the byte count always suffices because each rune
consumes at least one byte). -/
def utf8RunesAux : Nat → List Nat → List Nat
  | 0, _ => []
  | _ + 1, [] => []
  | fuel + 1, b :: rest =>
    let d := utf8DecodeRune (b :: rest)
    d.1 :: utf8RunesAux fuel (rest.drop (d.2 - 1))

/-- The rune sequence of a byte string, as Go's `for _, r := range text`
iterates it (UTF-8 decoding, `0xFFFD` for invalid bytes). -/
def utf8Runes (input : List Nat) : List Nat := utf8RunesAux input.length input

/-- `processor.Cell`: a rune plus a style (the Go cell stores a pointer to
an `SGR`; every store copies, so value semantics coincide). -/
structure Cell where
  char : Nat
  sgr : SGR
deriving DecidableEq, Repr

/-- The cell `{Char: 0x0, SGR: types.NewSGR()}` used for construction and
erasing. -/
def emptyCell : Cell := { char := 0, sgr := NewSGR }

/-- `processor.VirtualTerminal`.  Cursor fields are Go `int`s; the debug
flags (always false) are omitted. -/
structure VirtualTerminal where
  buffer : List (List Cell)
  width : Int
  height : Int
  cursorX : Int := 0
  cursorY : Int := 0
  currentSGR : SGR := NewSGR
  savedCursorX : Int := 0
  savedCursorY : Int := 0
  outputEncoding : String := "utf8"
  useVGAColors : Bool := false
deriving Repr

/-- `NewVirtualTerminal(width, height, outputEncoding, useVGAColors)`:
a `height × width` grid of empty cells, cursor at the origin, default
current style. -/
def NewVirtualTerminal (width height : Int) (outputEncoding : String) (useVGAColors : Bool) :
    VirtualTerminal :=
  { buffer := List.replicate height.toNat (List.replicate width.toNat emptyCell)
    width := width, height := height
    outputEncoding := outputEncoding, useVGAColors := useVGAColors }

/-- `vt.buffer[y][x] = c`.  Go panics when an index is out of range; the
total embedding drops such a write (`List.set` past the end is the
identity), and bounds are always stated explicitly in the theorems. -/
def setCell (buf : List (List Cell)) (y x : Int) (c : Cell) : List (List Cell) :=
  if 0 ≤ y ∧ 0 ≤ x then buf.set y.toNat ((buf.getD y.toNat []).set x.toNat c) else buf

/-- The per-rune body of `writeText`: write at the cursor when
`cursorY < height` (copying the current style), advance, and wrap at the
right edge with the row clamped to `height - 1`; when `cursorY ≥ height`
nothing happens (the write is dropped and the cursor does not move). -/
def VirtualTerminal.writeRune (vt : VirtualTerminal) (r : Nat) : VirtualTerminal :=
  if vt.cursorY < vt.height then
    let vt1 :=
      { vt with buffer := setCell vt.buffer vt.cursorY vt.cursorX { char := r, sgr := vt.currentSGR } }
    let x := vt1.cursorX + 1
    if x ≥ vt1.width then
      let y := vt1.cursorY + 1
      { vt1 with cursorX := 0, cursorY := if y ≥ vt1.height then vt1.height - 1 else y }
    else { vt1 with cursorX := x }
  else vt

/-- `(*VirtualTerminal).writeText(text)`: iterate the runes of the value. -/
def VirtualTerminal.writeText (vt : VirtualTerminal) (value : List Nat) : VirtualTerminal :=
  (utf8Runes value).foldl VirtualTerminal.writeRune vt

/-- `(*VirtualTerminal).handleC0(code)`.  TAB moves to the next multiple of
8 (wrapping without clamping the row); LF increments `cursorY` clamped to
`height-1` and leaves `cursorX` unchanged; CR zeroes `cursorX`; BS
decrements `cursorX` with a floor of 0; all other C0 bytes are ignored. -/
def VirtualTerminal.handleC0 (vt : VirtualTerminal) (code : Nat) : VirtualTerminal :=
  if code = 0x09 then
    let x := (vt.cursorX / 8 + 1) * 8
    if x ≥ vt.width then { vt with cursorX := 0, cursorY := vt.cursorY + 1 }
    else { vt with cursorX := x }
  else if code = 0x0A then
    let y := vt.cursorY + 1
    { vt with cursorY := if y ≥ vt.height then vt.height - 1 else y }
  else if code = 0x0D then { vt with cursorX := 0 }
  else if code = 0x08 then
    if 0 < vt.cursorX then { vt with cursorX := vt.cursorX - 1 } else vt
  else vt

/-- `(*VirtualTerminal).handleSGR(params)`: empty strings become 0,
unparsable strings are skipped; an empty result resets the current style,
otherwise `ApplyParams` is applied to it. -/
def VirtualTerminal.handleSGR (vt : VirtualTerminal) (params : List (List Nat)) : VirtualTerminal :=
  let intParams := params.filterMap (fun p => if p = [] then some 0 else goAtoiBytes p)
  if intParams = [] then { vt with currentSGR := vt.currentSGR.Reset }
  else { vt with currentSGR := vt.currentSGR.ApplyParams intParams }

/-- `(*VirtualTerminal).eraseDisplay(mode)`.  Mode 0 clears from the cursor
to the end of the screen, mode 1 from the origin through the cursor, mode 2
the whole grid; cleared cells become `{0x0, NewSGR}`.  No branch touches
the cursor. -/
def VirtualTerminal.eraseDisplay (vt : VirtualTerminal) (mode : Int) : VirtualTerminal :=
  if mode = 0 then
    let buf :=
      (List.range vt.height.toNat).foldl
        (fun b y =>
          if vt.cursorY ≤ (y : Int) then
            (List.range vt.width.toNat).foldl
              (fun b2 x =>
                if (y : Int) = vt.cursorY ∧ (x : Int) < vt.cursorX then b2
                else setCell b2 (y : Int) (x : Int) emptyCell)
              b
          else b)
        vt.buffer
    { vt with buffer := buf }
  else if mode = 1 then
    let buf :=
      (List.range (vt.cursorY + 1).toNat).foldl
        (fun b y =>
          (List.range vt.width.toNat).foldl
            (fun b2 x =>
              if (y : Int) = vt.cursorY ∧ vt.cursorX < (x : Int) then b2
              else setCell b2 (y : Int) (x : Int) emptyCell)
            b)
        vt.buffer
    { vt with buffer := buf }
  else if mode = 2 then
    let buf :=
      (List.range vt.height.toNat).foldl
        (fun b y =>
          (List.range vt.width.toNat).foldl
            (fun b2 x => setCell b2 (y : Int) (x : Int) emptyCell)
            b)
        vt.buffer
    { vt with buffer := buf }
  else vt

/-- `(*VirtualTerminal).eraseLine(mode)`: the row-wise analogue of
`eraseDisplay`, acting on the cursor row only. -/
def VirtualTerminal.eraseLine (vt : VirtualTerminal) (mode : Int) : VirtualTerminal :=
  if mode = 0 then
    let buf :=
      (List.range vt.width.toNat).foldl
        (fun b x =>
          if vt.cursorX ≤ (x : Int) then setCell b vt.cursorY (x : Int) emptyCell else b)
        vt.buffer
    { vt with buffer := buf }
  else if mode = 1 then
    let buf :=
      (List.range (vt.cursorX + 1).toNat).foldl
        (fun b x => setCell b vt.cursorY (x : Int) emptyCell)
        vt.buffer
    { vt with buffer := buf }
  else if mode = 2 then
    let buf :=
      (List.range vt.width.toNat).foldl
        (fun b x => setCell b vt.cursorY (x : Int) emptyCell)
        vt.buffer
    { vt with buffer := buf }
  else vt

/-- `(*VirtualTerminal).handleCSI(token)`: dispatch on the last byte of the
raw sequence.  `A`/`B`/`C`/`D` move the cursor (`A` floored at 0, `C`
clamped to `width-1`, `D` floored at 0, `B` unclamped); `H`/`f` set the
position from 1-indexed row/column parameters without any upper clamp;
`J`/`K` erase; `s`/`u` save and restore.  A parameter that fails to parse
contributes Go's zero `Atoi` result. -/
def VirtualTerminal.handleCSI (vt : VirtualTerminal) (token : Token) : VirtualTerminal :=
  match token.raw.getLast? with
  | none => vt
  | some lastChar =>
    if lastChar = 65 then
      let n : Int := if token.parameters.length > 0
        then (goAtoiBytes (token.parameters.headD [])).getD 0 else 1
      { vt with cursorY := max 0 (vt.cursorY - n) }
    else if lastChar = 66 then
      let n : Int := if token.parameters.length > 0
        then (goAtoiBytes (token.parameters.headD [])).getD 0 else 1
      { vt with cursorY := vt.cursorY + n }
    else if lastChar = 67 then
      let n : Int := if token.parameters.length > 0
        then (goAtoiBytes (token.parameters.headD [])).getD 0 else 1
      let x := vt.cursorX + n
      { vt with cursorX := if x ≥ vt.width then vt.width - 1 else x }
    else if lastChar = 68 then
      let n : Int := if token.parameters.length > 0
        then (goAtoiBytes (token.parameters.headD [])).getD 0 else 1
      let x := vt.cursorX - n
      { vt with cursorX := if x < 0 then 0 else x }
    else if lastChar = 72 ∨ lastChar = 102 then
      let row : Int := if token.parameters.length > 0
        then (goAtoiBytes (token.parameters.headD [])).getD 0 else 0
      let col : Int := if token.parameters.length > 1
        then (goAtoiBytes ((token.parameters.drop 1).headD [])).getD 0 else 0
      { vt with cursorY := max row 1 - 1, cursorX := max col 1 - 1 }
    else if lastChar = 74 then
      let mode : Int := if token.parameters.length > 0
        then (goAtoiBytes (token.parameters.headD [])).getD 0 else 0
      vt.eraseDisplay mode
    else if lastChar = 75 then
      let mode : Int := if token.parameters.length > 0
        then (goAtoiBytes (token.parameters.headD [])).getD 0 else 0
      vt.eraseLine mode
    else if lastChar = 115 then
      { vt with savedCursorX := vt.cursorX, savedCursorY := vt.cursorY }
    else if lastChar = 117 then
      { vt with cursorX := vt.savedCursorX, cursorY := vt.savedCursorY }
    else vt

/-- `(*VirtualTerminal).applyToken(token)`: route text, C0, SGR and CSI
tokens; every other token type is ignored (the Go method always returns a
nil error). -/
def VirtualTerminal.applyToken (vt : VirtualTerminal) (token : Token) : VirtualTerminal :=
  match token.type with
  | TokenType.TokenText => vt.writeText token.value
  | TokenType.TokenC0 => vt.handleC0 token.c0Code
  | TokenType.TokenSGR => vt.handleSGR token.parameters
  | TokenType.TokenCSI => vt.handleCSI token
  | _ => vt

/-- `(*VirtualTerminal).ApplyTokens(tokens)`: apply in order. -/
def VirtualTerminal.ApplyTokens (vt : VirtualTerminal) (tokens : List Token) : VirtualTerminal :=
  tokens.foldl VirtualTerminal.applyToken vt

/-! ## Derived predicates and proof helpers

These definitions do not come from the source; they name state spaces and
transition conditions that the theorems below quantify over, plus small
helpers that make the proofs modular. -/

/-- The effect of a single non-extended SGR code, i.e. one iteration of the
`ApplyParams` loop for a code other than 38/48 (for which it is the
identity).  Used only to factor the `ApplyParams` proofs. -/
def applyOne (s : SGR) (code : Int) : SGR :=
  if code = 0 then s.Reset
  else if code = 1 then { s with Bold := true }
  else if code = 21 ∨ code = 22 then { s with Bold := false }
  else if code = 2 then { s with Dim := true }
  else if code = 3 then { s with Italic := true }
  else if code = 4 then { s with Underline := true }
  else if code = 5 then { s with Blink := true }
  else if code = 7 then { s with Reverse := true }
  else if code = 8 then { s with Hidden := true }
  else if code = 9 then { s with Strikethrough := true }
  else if 30 ≤ code ∧ code ≤ 37 then
    { s with FgColor := { type := ColorType.ColorStandard, index := u8 (code - 30) } }
  else if code = 38 then s
  else if code = 39 then { s with FgColor := { type := ColorType.ColorDefault } }
  else if 40 ≤ code ∧ code ≤ 47 then
    { s with BgColor := { type := ColorType.ColorStandard, index := u8 (code - 40) } }
  else if code = 48 then s
  else if code = 49 then { s with BgColor := { type := ColorType.ColorDefault } }
  else if 90 ≤ code ∧ code ≤ 97 then
    { s with FgColor := { type := ColorType.ColorStandard, index := u8 (code - 90 + 8) } }
  else if 100 ≤ code ∧ code ≤ 107 then
    { s with BgColor := { type := ColorType.ColorStandard, index := u8 (code - 100 + 8) } }
  else s

/-- A color value as the program actually constructs them: the tag-relevant
components are in `uint8` range (Standard indices are 0–15) and the unused
components are zero.  `ApplyParams`, `ApplyNeotexCode` and `NewSGR` produce
only canonical colors. -/
def ColorValue.Canonical (c : ColorValue) : Prop :=
  (c.type = ColorType.ColorDefault → c.r = 0 ∧ c.g = 0 ∧ c.b = 0 ∧ c.index = 0) ∧
  (c.type = ColorType.ColorStandard → c.r = 0 ∧ c.g = 0 ∧ c.b = 0 ∧ c.index < 16) ∧
  (c.type = ColorType.ColorIndexed → c.r = 0 ∧ c.g = 0 ∧ c.b = 0 ∧ c.index < 256) ∧
  (c.type = ColorType.ColorRGB → c.r < 256 ∧ c.g < 256 ∧ c.b < 256 ∧ c.index = 0)

instance (c : ColorValue) : Decidable c.Canonical := by
  unfold ColorValue.Canonical
  infer_instance

/-- An SGR state with canonical colors. -/
def SGR.Canonical (s : SGR) : Prop := s.FgColor.Canonical ∧ s.BgColor.Canonical

instance (s : SGR) : Decidable s.Canonical := by
  unfold SGR.Canonical
  infer_instance

/-- Between states `A` (before) and `B` (after), no boolean attribute other
than bold goes true→false.  These are exactly the transitions whose
modern-mode diff avoids the off-codes 23–29 and the dim half of 22, which
`ApplyParams` cannot interpret. -/
def OnlyBoldTurnedOff (A B : SGR) : Prop :=
  (A.Dim = true → B.Dim = true) ∧
  (A.Italic = true → B.Italic = true) ∧
  (A.Underline = true → B.Underline = true) ∧
  (A.Blink = true → B.Blink = true) ∧
  (A.Reverse = true → B.Reverse = true) ∧
  (A.Hidden = true → B.Hidden = true) ∧
  (A.Strikethrough = true → B.Strikethrough = true)

instance (A B : SGR) : Decidable (OnlyBoldTurnedOff A B) := by
  unfold OnlyBoldTurnedOff
  infer_instance

/-- The first `w` cells of a row replaced by empty cells (the state of a
row after the erase loops have visited columns `0..w-1`). -/
def clearPrefix (w : Nat) (row : List Cell) : List Cell :=
  (row.take w).map (fun _ => emptyCell) ++ row.drop w

/-- Buffer dimensions as `NewVirtualTerminal` establishes them. -/
def VirtualTerminal.WFDims (vt : VirtualTerminal) : Prop :=
  vt.buffer.length = vt.height.toNat ∧ ∀ row ∈ vt.buffer, row.length = vt.width.toNat

instance (vt : VirtualTerminal) : Decidable vt.WFDims := by
  unfold VirtualTerminal.WFDims
  infer_instance

/-- Total byte length of the `raw` fields of a token list. -/
def sumRaw (tokens : List Token) : Nat := (tokens.map (fun t => t.raw.length)).sum

/-- Number of Sauce tokens in a token list (each one drops exactly the one
`0x1A` marker byte from `raw`). -/
def sauceCount (tokens : List Token) : Nat :=
  (tokens.filter (fun t => decide (t.type = TokenType.TokenSauce))).length

/-- The conditions under which `DiffSGRToNeotex` actually rebuilds from a
reset, written as a proposition: one of dim/italic/underline/blink/reverse
goes true→false, or either color goes from bright Standard (index ≥ 8) to
normal Standard or to a non-Standard variant. -/
def NeotexResetTrigger (current previous : SGR) : Prop :=
  (previous.Dim = true ∧ current.Dim = false) ∨
  (previous.Italic = true ∧ current.Italic = false) ∨
  (previous.Underline = true ∧ current.Underline = false) ∨
  (previous.Blink = true ∧ current.Blink = false) ∨
  (previous.Reverse = true ∧ current.Reverse = false) ∨
  (previous.FgColor.type = ColorType.ColorStandard ∧ 8 ≤ previous.FgColor.index ∧
    (current.FgColor.type ≠ ColorType.ColorStandard ∨ current.FgColor.index < 8)) ∨
  (previous.BgColor.type = ColorType.ColorStandard ∧ 8 ≤ previous.BgColor.index ∧
    (current.BgColor.type ≠ ColorType.ColorStandard ∨ current.BgColor.index < 8))

instance (current previous : SGR) : Decidable (NeotexResetTrigger current previous) := by
  unfold NeotexResetTrigger
  infer_instance

/-- A line that `splitNeotexLines` consumes without stopping: long enough,
with the three separator runes `" | "` at position `width`. -/
def NeotexLineOK (width : Nat) (line : List Char) : Prop :=
  width + 3 ≤ line.length ∧ (line.drop width).take 3 = [' ', '|', ' ']

instance (width : Nat) (line : List Char) : Decidable (NeotexLineOK width line) := by
  unfold NeotexLineOK
  infer_instance

/-! ## Theorems -/

/-- C1.  The claim says the tokenizer maps CSI final byte `K` to an
EraseLine CSI token and `f` to a CursorPosition token, with `Unknown`
reserved for finals outside `{A,B,C,D,H,f,J,K,s,u,m}`.  The code disagrees:
`parseCSI` has no case for `K` or `f`, so `ESC [ 2 K` and `ESC [ 1 ; 1 f`
both tokenize as `TokenUnknown`, while a handled final such as `J` keeps
`TokenCSI`.  (The virtual terminal's `handleCSI` does have `K` and `f`
branches, but they are unreachable because only `TokenCSI` tokens are routed
there.) -/
theorem claim_C1_code_eval :
    (Tokenize [0x1B, 91, 50, 75]).1.map Token.type = [TokenType.TokenUnknown] ∧
    (Tokenize [0x1B, 91, 49, 59, 49, 102]).1.map Token.type = [TokenType.TokenUnknown] ∧
    (Tokenize [0x1B, 91, 50, 74]).1.map Token.type = [TokenType.TokenCSI] := by
  decide

/-- C3.  The claim says `0 ≤ cursorX ≤ width-1` and `0 ≤ cursorY ≤ height-1`
hold after every token.  The code violates it: on a 3×3 terminal, `CSI 99 B`
leaves `cursorY = 99` (`handleCSI` adds without clamping) and
`CSI 1 ; 99 H` leaves `cursorX = 98` (`H`/`f` set unclamped coordinates), so
a later buffer access through the cursor would be out of bounds. -/
theorem claim_C3_code_eval :
    ((NewVirtualTerminal 3 3 "utf8" false).ApplyTokens
        [{ type := TokenType.TokenCSI, raw := [27, 91, 57, 57, 66],
           parameters := [[57, 57]] }]).cursorY = 99 ∧
    ¬((NewVirtualTerminal 3 3 "utf8" false).ApplyTokens
        [{ type := TokenType.TokenCSI, raw := [27, 91, 57, 57, 66],
           parameters := [[57, 57]] }]).cursorY ≤ 3 - 1 ∧
    ((NewVirtualTerminal 3 3 "utf8" false).ApplyTokens
        [{ type := TokenType.TokenCSI, raw := [27, 91, 49, 59, 57, 57, 72],
           parameters := [[49], [57, 57]] }]).cursorX = 98 := by
  decide

/-- C4.  The claim (and the spec) say LF moves the cursor from `(x, y)` to
`(0, min(y+1, height-1))`, i.e. that LF carries an implicit carriage
return.  The code's `handleC0` only increments the row: after writing
`"foo"` and processing LF on an 80×25 terminal the cursor is `(3, 1)`, not
`(0, 1)`. -/
theorem claim_C4_code_eval :
    ((NewVirtualTerminal 80 25 "utf8" false).ApplyTokens
        [{ type := TokenType.TokenText, value := [102, 111, 111] },
         { type := TokenType.TokenC0, c0Code := 0x0A }]).cursorX = 3 ∧
    ((NewVirtualTerminal 80 25 "utf8" false).ApplyTokens
        [{ type := TokenType.TokenText, value := [102, 111, 111] },
         { type := TokenType.TokenC0, c0Code := 0x0A }]).cursorY = 1 := by
  decide

/-! Helper lemmas about `ApplyParams`: one-code steps, concatenation of
closed code lists, and the effect of each segment of a modern-mode diff. -/

theorem ap_0 (s : SGR) (r : List Int) :
    SGR.ApplyParams s (0 :: r) = SGR.ApplyParams NewSGR r := by
  rw [SGR.ApplyParams.eq_def]; norm_num [SGR.Reset]

theorem ap_1 (s : SGR) (r : List Int) :
    SGR.ApplyParams s (1 :: r) = SGR.ApplyParams { s with Bold := true } r := by
  rw [SGR.ApplyParams.eq_def]; norm_num

theorem ap_22 (s : SGR) (r : List Int) :
    SGR.ApplyParams s (22 :: r) = SGR.ApplyParams { s with Bold := false } r := by
  rw [SGR.ApplyParams.eq_def]; norm_num

theorem ap_2 (s : SGR) (r : List Int) :
    SGR.ApplyParams s (2 :: r) = SGR.ApplyParams { s with Dim := true } r := by
  rw [SGR.ApplyParams.eq_def]; norm_num

theorem ap_3 (s : SGR) (r : List Int) :
    SGR.ApplyParams s (3 :: r) = SGR.ApplyParams { s with Italic := true } r := by
  rw [SGR.ApplyParams.eq_def]; norm_num

theorem ap_4 (s : SGR) (r : List Int) :
    SGR.ApplyParams s (4 :: r) = SGR.ApplyParams { s with Underline := true } r := by
  rw [SGR.ApplyParams.eq_def]; norm_num

theorem ap_5 (s : SGR) (r : List Int) :
    SGR.ApplyParams s (5 :: r) = SGR.ApplyParams { s with Blink := true } r := by
  rw [SGR.ApplyParams.eq_def]; norm_num

theorem ap_7 (s : SGR) (r : List Int) :
    SGR.ApplyParams s (7 :: r) = SGR.ApplyParams { s with Reverse := true } r := by
  rw [SGR.ApplyParams.eq_def]; norm_num

theorem ap_8 (s : SGR) (r : List Int) :
    SGR.ApplyParams s (8 :: r) = SGR.ApplyParams { s with Hidden := true } r := by
  rw [SGR.ApplyParams.eq_def]; norm_num

theorem ap_9 (s : SGR) (r : List Int) :
    SGR.ApplyParams s (9 :: r) = SGR.ApplyParams { s with Strikethrough := true } r := by
  rw [SGR.ApplyParams.eq_def]; norm_num

theorem ap_39 (s : SGR) (r : List Int) :
    SGR.ApplyParams s (39 :: r) =
      SGR.ApplyParams { s with FgColor := { type := ColorType.ColorDefault } } r := by
  rw [SGR.ApplyParams.eq_def]; norm_num

theorem ap_49 (s : SGR) (r : List Int) :
    SGR.ApplyParams s (49 :: r) =
      SGR.ApplyParams { s with BgColor := { type := ColorType.ColorDefault } } r := by
  rw [SGR.ApplyParams.eq_def]; norm_num

theorem ap_38_idx (s : SGR) (n : Int) (r : List Int) :
    SGR.ApplyParams s (38 :: 5 :: n :: r) =
      SGR.ApplyParams { s with FgColor := { type := ColorType.ColorIndexed, index := u8 n } } r := by
  rw [SGR.ApplyParams.eq_def]; norm_num

theorem ap_38_rgb (s : SGR) (a b d : Int) (r : List Int) :
    SGR.ApplyParams s (38 :: 2 :: a :: b :: d :: r) =
      SGR.ApplyParams
        { s with FgColor := { type := ColorType.ColorRGB, r := u8 a, g := u8 b, b := u8 d } } r := by
  rw [SGR.ApplyParams.eq_def]; norm_num

theorem ap_48_idx (s : SGR) (n : Int) (r : List Int) :
    SGR.ApplyParams s (48 :: 5 :: n :: r) =
      SGR.ApplyParams { s with BgColor := { type := ColorType.ColorIndexed, index := u8 n } } r := by
  rw [SGR.ApplyParams.eq_def]; norm_num

theorem ap_48_rgb (s : SGR) (a b d : Int) (r : List Int) :
    SGR.ApplyParams s (48 :: 2 :: a :: b :: d :: r) =
      SGR.ApplyParams
        { s with BgColor := { type := ColorType.ColorRGB, r := u8 a, g := u8 b, b := u8 d } } r := by
  rw [SGR.ApplyParams.eq_def]; norm_num

theorem seg_bold (s : SGR) (bNew bOld : Bool) (p : Prop) [Decidable p]
    (hp : p ↔ bNew ≠ bOld) (hs : s.Bold = bOld) (R : List Int) :
    SGR.ApplyParams s
        ((if p then (if bNew then [(1 : Int)] else [22]) else []) ++ R) =
      SGR.ApplyParams { s with Bold := bNew } R := by
  by_cases h : bNew = bOld
  · rw [if_neg (fun hh => (hp.mp hh) h), List.nil_append]
    subst h; rw [← hs]
  · rw [if_pos (hp.mpr h)]
    cases bNew
    · exact ap_22 s R
    · exact ap_1 s R

theorem seg_dim (s : SGR) (bNew bOld : Bool) (hs : s.Dim = bOld)
    (hOff : bOld = true → bNew = true) (R : List Int) :
    SGR.ApplyParams s
        ((if bNew ≠ bOld then (if bNew then [(2 : Int)] else [22]) else []) ++ R) =
      SGR.ApplyParams { s with Dim := bNew } R := by
  by_cases h : bNew = bOld
  · rw [if_neg (by simp [h]), List.nil_append]
    subst h; rw [← hs]
  · rw [if_pos h]
    cases bNew
    · cases bOld
      · exact absurd rfl h
      · exact absurd (hOff rfl) (by decide)
    · exact ap_2 s R

theorem seg_italic (s : SGR) (bNew bOld : Bool) (hs : s.Italic = bOld)
    (hOff : bOld = true → bNew = true) (R : List Int) :
    SGR.ApplyParams s
        ((if bNew ≠ bOld then (if bNew then [(3 : Int)] else [23]) else []) ++ R) =
      SGR.ApplyParams { s with Italic := bNew } R := by
  by_cases h : bNew = bOld
  · rw [if_neg (by simp [h]), List.nil_append]
    subst h; rw [← hs]
  · rw [if_pos h]
    cases bNew
    · cases bOld
      · exact absurd rfl h
      · exact absurd (hOff rfl) (by decide)
    · exact ap_3 s R

theorem seg_underline (s : SGR) (bNew bOld : Bool) (hs : s.Underline = bOld)
    (hOff : bOld = true → bNew = true) (R : List Int) :
    SGR.ApplyParams s
        ((if bNew ≠ bOld then (if bNew then [(4 : Int)] else [24]) else []) ++ R) =
      SGR.ApplyParams { s with Underline := bNew } R := by
  by_cases h : bNew = bOld
  · rw [if_neg (by simp [h]), List.nil_append]
    subst h; rw [← hs]
  · rw [if_pos h]
    cases bNew
    · cases bOld
      · exact absurd rfl h
      · exact absurd (hOff rfl) (by decide)
    · exact ap_4 s R

theorem seg_blink (s : SGR) (bNew bOld : Bool) (hs : s.Blink = bOld)
    (hOff : bOld = true → bNew = true) (R : List Int) :
    SGR.ApplyParams s
        ((if bNew ≠ bOld then (if bNew then [(5 : Int)] else [25]) else []) ++ R) =
      SGR.ApplyParams { s with Blink := bNew } R := by
  by_cases h : bNew = bOld
  · rw [if_neg (by simp [h]), List.nil_append]
    subst h; rw [← hs]
  · rw [if_pos h]
    cases bNew
    · cases bOld
      · exact absurd rfl h
      · exact absurd (hOff rfl) (by decide)
    · exact ap_5 s R

theorem seg_reverse (s : SGR) (bNew bOld : Bool) (hs : s.Reverse = bOld)
    (hOff : bOld = true → bNew = true) (R : List Int) :
    SGR.ApplyParams s
        ((if bNew ≠ bOld then (if bNew then [(7 : Int)] else [27]) else []) ++ R) =
      SGR.ApplyParams { s with Reverse := bNew } R := by
  by_cases h : bNew = bOld
  · rw [if_neg (by simp [h]), List.nil_append]
    subst h; rw [← hs]
  · rw [if_pos h]
    cases bNew
    · cases bOld
      · exact absurd rfl h
      · exact absurd (hOff rfl) (by decide)
    · exact ap_7 s R

theorem seg_hidden (s : SGR) (bNew bOld : Bool) (hs : s.Hidden = bOld)
    (hOff : bOld = true → bNew = true) (R : List Int) :
    SGR.ApplyParams s
        ((if bNew ≠ bOld then (if bNew then [(8 : Int)] else [28]) else []) ++ R) =
      SGR.ApplyParams { s with Hidden := bNew } R := by
  by_cases h : bNew = bOld
  · rw [if_neg (by simp [h]), List.nil_append]
    subst h; rw [← hs]
  · rw [if_pos h]
    cases bNew
    · cases bOld
      · exact absurd rfl h
      · exact absurd (hOff rfl) (by decide)
    · exact ap_8 s R

theorem seg_strike (s : SGR) (bNew bOld : Bool) (hs : s.Strikethrough = bOld)
    (hOff : bOld = true → bNew = true) (R : List Int) :
    SGR.ApplyParams s
        ((if bNew ≠ bOld then (if bNew then [(9 : Int)] else [29]) else []) ++ R) =
      SGR.ApplyParams { s with Strikethrough := bNew } R := by
  by_cases h : bNew = bOld
  · rw [if_neg (by simp [h]), List.nil_append]
    subst h; rw [← hs]
  · rw [if_pos h]
    cases bNew
    · cases bOld
      · exact absurd rfl h
      · exact absurd (hOff rfl) (by decide)
    · exact ap_9 s R

theorem ap_fg_std (i : Nat) (hi : i < 8) (s : SGR) (r : List Int) :
    SGR.ApplyParams s ((30 + (i : Int)) :: r) =
      SGR.ApplyParams { s with FgColor := { type := ColorType.ColorStandard, index := i } } r := by
  interval_cases i <;> (rw [SGR.ApplyParams.eq_def]; norm_num [u8]; try rfl)

theorem ap_fg_bright (i : Nat) (h8 : 8 ≤ i) (h16 : i < 16) (s : SGR) (r : List Int) :
    SGR.ApplyParams s ((90 + (i : Int) - 8) :: r) =
      SGR.ApplyParams { s with FgColor := { type := ColorType.ColorStandard, index := i } } r := by
  interval_cases i <;> (rw [SGR.ApplyParams.eq_def]; norm_num [u8]; try rfl)

theorem ap_bg_std (i : Nat) (hi : i < 8) (s : SGR) (r : List Int) :
    SGR.ApplyParams s ((40 + (i : Int)) :: r) =
      SGR.ApplyParams { s with BgColor := { type := ColorType.ColorStandard, index := i } } r := by
  interval_cases i <;> (rw [SGR.ApplyParams.eq_def]; norm_num [u8]; try rfl)

theorem ap_bg_bright (i : Nat) (h8 : 8 ≤ i) (h16 : i < 16) (s : SGR) (r : List Int) :
    SGR.ApplyParams s ((100 + (i : Int) - 8) :: r) =
      SGR.ApplyParams { s with BgColor := { type := ColorType.ColorStandard, index := i } } r := by
  interval_cases i <;> (rw [SGR.ApplyParams.eq_def]; norm_num [u8]; try rfl)

theorem u8_coe (n : Nat) (h : n < 256) : u8 (n : Int) = n := by
  unfold u8
  omega

theorem ap_fgCodes (s B : SGR) (hc : B.FgColor.Canonical) (R : List Int) :
    SGR.ApplyParams s (B.fgColorCodesLegacy false ++ R) =
      SGR.ApplyParams { s with FgColor := B.FgColor } R := by
  obtain ⟨c1, c2, c3, c4⟩ := hc
  rcases hfg : B.FgColor with ⟨ty, rr, gg, bb, ii⟩
  rw [hfg] at c1 c2 c3 c4
  simp only at c1 c2 c3 c4
  cases ty with
  | ColorDefault =>
    obtain ⟨z1, z2, z3, z4⟩ := c1 rfl
    subst z1; subst z2; subst z3; subst z4
    have hcodes : B.fgColorCodesLegacy false = [39] := by
      simp [SGR.fgColorCodesLegacy, ColorValue.IsDefault, hfg]
    rw [hcodes]
    exact ap_39 s R
  | ColorStandard =>
    obtain ⟨z1, z2, z3, z4⟩ := c2 rfl
    subst z1; subst z2; subst z3
    by_cases h8 : ii < 8
    · have hcodes : B.fgColorCodesLegacy false = [30 + (ii : Int)] := by
        simp [SGR.fgColorCodesLegacy, ColorValue.IsDefault, hfg, h8]
      rw [hcodes]
      exact ap_fg_std ii h8 s R
    · have hcodes : B.fgColorCodesLegacy false = [90 + (ii : Int) - 8] := by
        simp [SGR.fgColorCodesLegacy, ColorValue.IsDefault, hfg, h8]
      rw [hcodes]
      exact ap_fg_bright ii (by omega) z4 s R
  | ColorIndexed =>
    obtain ⟨z1, z2, z3, z4⟩ := c3 rfl
    subst z1; subst z2; subst z3
    have hcodes : B.fgColorCodesLegacy false = [38, 5, (ii : Int)] := by
      simp [SGR.fgColorCodesLegacy, ColorValue.IsDefault, hfg]
    rw [hcodes]
    refine (ap_38_idx s (ii : Int) R).trans ?_
    rw [u8_coe ii z4]
  | ColorRGB =>
    obtain ⟨z1, z2, z3, z4⟩ := c4 rfl
    subst z4
    have hcodes : B.fgColorCodesLegacy false =
        [38, 2, (rr : Int), (gg : Int), (bb : Int)] := by
      simp [SGR.fgColorCodesLegacy, ColorValue.IsDefault, hfg]
    rw [hcodes]
    refine (ap_38_rgb s (rr : Int) (gg : Int) (bb : Int) R).trans ?_
    rw [u8_coe rr z1, u8_coe gg z2, u8_coe bb z3]

theorem ap_bgCodes (s B : SGR) (hc : B.BgColor.Canonical) (R : List Int) :
    SGR.ApplyParams s (B.bgColorCodesLegacy false ++ R) =
      SGR.ApplyParams { s with BgColor := B.BgColor } R := by
  obtain ⟨c1, c2, c3, c4⟩ := hc
  rcases hbg : B.BgColor with ⟨ty, rr, gg, bb, ii⟩
  rw [hbg] at c1 c2 c3 c4
  simp only at c1 c2 c3 c4
  cases ty with
  | ColorDefault =>
    obtain ⟨z1, z2, z3, z4⟩ := c1 rfl
    subst z1; subst z2; subst z3; subst z4
    have hcodes : B.bgColorCodesLegacy false = [49] := by
      simp [SGR.bgColorCodesLegacy, ColorValue.IsDefault, hbg]
    rw [hcodes]
    exact ap_49 s R
  | ColorStandard =>
    obtain ⟨z1, z2, z3, z4⟩ := c2 rfl
    subst z1; subst z2; subst z3
    by_cases h8 : ii < 8
    · have hcodes : B.bgColorCodesLegacy false = [40 + (ii : Int)] := by
        simp [SGR.bgColorCodesLegacy, ColorValue.IsDefault, hbg, h8]
      rw [hcodes]
      exact ap_bg_std ii h8 s R
    · have hcodes : B.bgColorCodesLegacy false = [100 + (ii : Int) - 8] := by
        simp [SGR.bgColorCodesLegacy, ColorValue.IsDefault, hbg, h8]
      rw [hcodes]
      exact ap_bg_bright ii (by omega) z4 s R
  | ColorIndexed =>
    obtain ⟨z1, z2, z3, z4⟩ := c3 rfl
    subst z1; subst z2; subst z3
    have hcodes : B.bgColorCodesLegacy false = [48, 5, (ii : Int)] := by
      simp [SGR.bgColorCodesLegacy, ColorValue.IsDefault, hbg]
    rw [hcodes]
    refine (ap_48_idx s (ii : Int) R).trans ?_
    rw [u8_coe ii z4]
  | ColorRGB =>
    obtain ⟨z1, z2, z3, z4⟩ := c4 rfl
    subst z4
    have hcodes : B.bgColorCodesLegacy false =
        [48, 2, (rr : Int), (gg : Int), (bb : Int)] := by
      simp [SGR.bgColorCodesLegacy, ColorValue.IsDefault, hbg]
    rw [hcodes]
    refine (ap_48_rgb s (rr : Int) (gg : Int) (bb : Int) R).trans ?_
    rw [u8_coe rr z1, u8_coe gg z2, u8_coe bb z3]

theorem seg_fg (s B : SGR) (cOld : ColorValue) (hs : s.FgColor = cOld)
    (hc : B.FgColor.Canonical) (R : List Int) :
    SGR.ApplyParams s ((if B.FgColor ≠ cOld then B.fgColorCodesLegacy false else []) ++ R) =
      SGR.ApplyParams { s with FgColor := B.FgColor } R := by
  by_cases h : B.FgColor = cOld
  · rw [if_neg (by simpa using h), List.nil_append]
    rw [h.symm] at hs
    rw [← hs]
  · rw [if_pos h]
    exact ap_fgCodes s B hc R

theorem seg_bg (s B : SGR) (cOld : ColorValue) (hs : s.BgColor = cOld)
    (hc : B.BgColor.Canonical) (R : List Int) :
    SGR.ApplyParams s ((if B.BgColor ≠ cOld then B.bgColorCodesLegacy false else []) ++ R) =
      SGR.ApplyParams { s with BgColor := B.BgColor } R := by
  by_cases h : B.BgColor = cOld
  · rw [if_neg (by simpa using h), List.nil_append]
    rw [h.symm] at hs
    rw [← hs]
  · rw [if_pos h]
    exact ap_bgCodes s B hc R


theorem seg_bg_last (s B : SGR) (cOld : ColorValue) (hs : s.BgColor = cOld)
    (hc : B.BgColor.Canonical) :
    SGR.ApplyParams s (if B.BgColor ≠ cOld then B.bgColorCodesLegacy false else []) =
      { s with BgColor := B.BgColor } := by
  by_cases h : B.BgColor = cOld
  · rw [if_neg (by simp [h]), h, ← hs]
    rfl
  · rw [if_pos h]
    conv_lhs => rw [← List.append_nil (B.bgColorCodesLegacy false)]
    exact (ap_bgCodes s B hc []).trans rfl

set_option maxHeartbeats 2000000 in
/-- C2, amended claim.  For canonical SGR states (Standard color indices
below 16, components in `uint8` range, unused color fields zero — the only
states `ApplyParams`/`NewSGR` construct) and transitions in which no
boolean attribute other than bold goes true→false, applying the modern-mode
differential code list to the old state reproduces the new state:
`apply(diff(B, A, modern), A) = B`.  The restriction is forced by the
counterexample: the diff emits off-codes 22 (dim) and 23–29, which
`ApplyParams` does not interpret. -/
theorem claim_C2_amended (A B : SGR) (hB : B.Canonical) (h : OnlyBoldTurnedOff A B) :
    SGR.ApplyParams A (SGR.Diff B (some A) false) = B := by
  obtain ⟨hOffD, hOffI, hOffU, hOffBl, hOffR, hOffH, hOffS⟩ := h
  by_cases hBA : B = A
  · simp only [SGR.Diff, if_pos hBA]
    exact hBA.symm
  by_cases hBd : B = NewSGR
  · simp only [SGR.Diff, if_neg hBA, if_pos hBd]
    rw [ap_0]
    exact hBd.symm
  · simp only [SGR.Diff, if_neg hBA, if_neg hBd]
    rw [if_neg (by simp)]
    simp only [List.append_assoc]
    refine (seg_bold A B.Bold A.Bold _ ?_ ?_ _).trans ?_
    · simp
    · rfl
    refine (seg_dim _ B.Dim A.Dim ?_ hOffD _).trans ?_
    · rfl
    refine (seg_italic _ B.Italic A.Italic ?_ hOffI _).trans ?_
    · rfl
    refine (seg_underline _ B.Underline A.Underline ?_ hOffU _).trans ?_
    · rfl
    refine (seg_blink _ B.Blink A.Blink ?_ hOffBl _).trans ?_
    · rfl
    refine (seg_reverse _ B.Reverse A.Reverse ?_ hOffR _).trans ?_
    · rfl
    refine (seg_hidden _ B.Hidden A.Hidden ?_ hOffH _).trans ?_
    · rfl
    refine (seg_strike _ B.Strikethrough A.Strikethrough ?_ hOffS _).trans ?_
    · rfl
    refine (seg_fg _ B A.FgColor ?_ hB.1 _).trans ?_
    · rfl
    refine (seg_bg_last _ B A.BgColor ?_ hB.2).trans ?_
    · rfl
    rfl

/-- Witness for the amended C2 at a concrete instance: `A` = default,
`B` = bold+italic with bright-red foreground. -/
theorem claim_C2_witness :
    SGR.Canonical { NewSGR with Bold := true, Italic := true, FgColor := stdColor 9 } ∧
    OnlyBoldTurnedOff NewSGR
      { NewSGR with Bold := true, Italic := true, FgColor := stdColor 9 } ∧
    SGR.ApplyParams NewSGR
        (SGR.Diff { NewSGR with Bold := true, Italic := true, FgColor := stdColor 9 }
          (some NewSGR) false) =
      { NewSGR with Bold := true, Italic := true, FgColor := stdColor 9 } :=
  ⟨by decide, by decide,
    claim_C2_amended NewSGR
      { NewSGR with Bold := true, Italic := true, FgColor := stdColor 9 }
      (by decide) (by decide)⟩

/-- C2, counterexample.  With `A` = default+italic+underline and `B` =
default+underline, the modern diff is `[23]` (italic off), which
`ApplyParams` ignores — so `apply(diff(B, A, modern), A) ≠ B`, refuting the
claim as stated. -/
theorem claim_C2_counterexample :
    SGR.ApplyParams { NewSGR with Italic := true, Underline := true }
        (SGR.Diff { NewSGR with Underline := true }
          (some { NewSGR with Italic := true, Underline := true }) false) ≠
      { NewSGR with Underline := true } := by
  decide

/-- C5, counterexample.  After writing `"ab"` on a 2×2 terminal the cursor
sits at `(0, 1)`; `CSI 2 J` clears every cell but leaves the cursor at
`(0, 1)`, not `(0, 0)` — `eraseDisplay` never touches the cursor, refuting
the "resets the cursor" half of the claim. -/
theorem claim_C5_counterexample :
    ((VirtualTerminal.ApplyTokens (NewVirtualTerminal 2 2 "utf8" false)
        [{ type := TokenType.TokenText, value := [97, 98] },
         { type := TokenType.TokenCSI, raw := [27, 91, 50, 74],
           parameters := [[50]] }]).buffer =
      [[emptyCell, emptyCell], [emptyCell, emptyCell]]) ∧
    ¬(((VirtualTerminal.ApplyTokens (NewVirtualTerminal 2 2 "utf8" false)
        [{ type := TokenType.TokenText, value := [97, 98] },
         { type := TokenType.TokenCSI, raw := [27, 91, 50, 74],
           parameters := [[50]] }]).cursorX = 0) ∧
      ((VirtualTerminal.ApplyTokens (NewVirtualTerminal 2 2 "utf8" false)
        [{ type := TokenType.TokenText, value := [97, 98] },
         { type := TokenType.TokenCSI, raw := [27, 91, 50, 74],
           parameters := [[50]] }]).cursorY = 0)) := by
  decide

/-- C6, counterexample.  `current` = default with foreground Standard(1),
`previous` = the same plus hidden: hidden goes true→false (an attribute
"turned off" by the claim's definition), `current ≠ previous`,
`current ≠ default-SGR`, yet `DiffSGRToNeotex` returns the empty list — not
`["R0"]` followed by an absolute list.  `needsReset` never checks hidden. -/
theorem claim_C6_counterexample :
    DiffSGRToNeotex { NewSGR with FgColor := stdColor 1 }
        (some { NewSGR with FgColor := stdColor 1, Hidden := true }) = [] ∧
    ({ NewSGR with FgColor := stdColor 1 } : SGR) ≠
      { NewSGR with FgColor := stdColor 1, Hidden := true } ∧
    ({ NewSGR with FgColor := stdColor 1 } : SGR) ≠ NewSGR ∧
    ({ NewSGR with FgColor := stdColor 1, Hidden := true } : SGR).Hidden = true ∧
    ({ NewSGR with FgColor := stdColor 1 } : SGR).Hidden = false := by
  decide

theorem fgtable_ne_R0 (i : Nat) : neotexFgColors.getD i "" ≠ "R0" := by
  rcases Nat.lt_or_ge i 16 with h | h
  · interval_cases i <;> decide
  · rw [List.getD_eq_default]
    · decide
    · simpa [neotexFgColors] using h

theorem bgtable_ne_R0 (i : Nat) : neotexBgColors.getD i "" ≠ "R0" := by
  rcases Nat.lt_or_ge i 8 with h | h
  · interval_cases i <;> decide
  · rw [List.getD_eq_default]
    · decide
    · simpa [neotexBgColors] using h

theorem appendF3_ne_R0 (a b c : String) : "F" ++ a ++ b ++ c ≠ "R0" := by
  intro h
  have hd : 'F' :: (a.data ++ b.data ++ c.data) = ['R', '0'] := congrArg String.data h
  injection hd with h1 h2
  exact absurd h1 (by decide)

theorem appendF1_ne_R0 (a : String) : "F" ++ a ≠ "R0" := by
  intro h
  have hd : 'F' :: a.data = ['R', '0'] := congrArg String.data h
  injection hd with h1 h2
  exact absurd h1 (by decide)

theorem appendB3_ne_R0 (a b c : String) : "B" ++ a ++ b ++ c ≠ "R0" := by
  intro h
  have hd : 'B' :: (a.data ++ b.data ++ c.data) = ['R', '0'] := congrArg String.data h
  injection hd with h1 h2
  exact absurd h1 (by decide)

theorem appendB1_ne_R0 (a : String) : "B" ++ a ≠ "R0" := by
  intro h
  have hd : 'B' :: a.data = ['R', '0'] := congrArg String.data h
  injection hd with h1 h2
  exact absurd h1 (by decide)

theorem R0_not_mem_fg (s : SGR) : "R0" ∉ fgColorToNeotex s := by
  unfold fgColorToNeotex
  split
  · intro h
    split at h <;> simp only [] at h <;> split at h <;>
      first
        | (rw [List.mem_singleton] at h; exact fgtable_ne_R0 _ h.symm)
        | simp at h
  · intro h
    rw [List.mem_singleton] at h
    exact appendF3_ne_R0 _ _ _ h.symm
  · intro h
    rw [List.mem_singleton] at h
    exact appendF1_ne_R0 _ h.symm
  · simp

theorem R0_not_mem_bg (s : SGR) : "R0" ∉ bgColorToNeotex s := by
  unfold bgColorToNeotex
  split
  · intro h
    split at h <;>
      first
        | (rw [List.mem_singleton] at h; exact bgtable_ne_R0 _ h.symm)
        | simp at h
  · intro h
    rw [List.mem_singleton] at h
    exact appendB3_ne_R0 _ _ _ h.symm
  · intro h
    rw [List.mem_singleton] at h
    exact appendB1_ne_R0 _ h.symm
  · simp

theorem SGRToNeotex_parts (s : SGR) :
    SGRToNeotex s = fgColorToNeotex s ++ bgColorToNeotex s ++
      ((if s.Dim then ["EM"] else []) ++ (if s.Italic then ["EI"] else []) ++
       (if s.Underline then ["EU"] else []) ++ (if s.Blink then ["EB"] else []) ++
       (if s.Reverse then ["ER"] else [])) := by
  simp only [SGRToNeotex, fgColorToNeotex, bgColorToNeotex, List.append_assoc]

/-- No element of an absolute neotex encoding is the reset mnemonic. -/
theorem R0_not_mem_SGRToNeotex (s : SGR) : "R0" ∉ SGRToNeotex s := by
  rw [SGRToNeotex_parts]
  intro h
  simp only [List.mem_append] at h
  rcases h with (hfg | hbg) | heff
  · exact R0_not_mem_fg s hfg
  · exact R0_not_mem_bg s hbg
  · rcases heff with (((he | he) | he) | he) | he <;> (revert he; split <;> decide)

/-- The boolean `needsReset` computed inside `DiffSGRToNeotex` holds exactly
on the `NeotexResetTrigger` transitions. -/
theorem neotexNeedsReset_iff (current previous : SGR) :
    neotexNeedsReset current previous = true ↔ NeotexResetTrigger current previous := by
  unfold neotexNeedsReset NeotexResetTrigger
  simp only [Bool.or_eq_true, Bool.and_eq_true, decide_eq_true_eq, Bool.not_eq_true',
    decide_eq_false_iff_not]
  constructor
  · rintro ((((((((⟨⟨⟨hpt, hct⟩, hpi⟩, hci⟩ | ⟨⟨hpt, hpi⟩, hd⟩) |
        ⟨⟨⟨hpt, hct⟩, hpi⟩, hci⟩) | ⟨⟨hpt, hpi⟩, hd⟩) | hdim) | hit) | hun) | hbl) | hrv)
    · exact Or.inr (Or.inr (Or.inr (Or.inr (Or.inr (Or.inl ⟨hpt, hpi, Or.inr hci⟩)))))
    · exact Or.inr (Or.inr (Or.inr (Or.inr (Or.inr (Or.inl ⟨hpt, hpi, hd⟩)))))
    · exact Or.inr (Or.inr (Or.inr (Or.inr (Or.inr (Or.inr ⟨hpt, hpi, Or.inr hci⟩)))))
    · exact Or.inr (Or.inr (Or.inr (Or.inr (Or.inr (Or.inr ⟨hpt, hpi, hd⟩)))))
    · exact Or.inl hdim
    · exact Or.inr (Or.inl hit)
    · exact Or.inr (Or.inr (Or.inl hun))
    · exact Or.inr (Or.inr (Or.inr (Or.inl hbl)))
    · exact Or.inr (Or.inr (Or.inr (Or.inr (Or.inl hrv))))
  · rintro (hdim | hit | hun | hbl | hrv | ⟨hpt, hpi, hd⟩ | ⟨hpt, hpi, hd⟩)
    · exact Or.inl (Or.inl (Or.inl (Or.inl (Or.inr hdim))))
    · exact Or.inl (Or.inl (Or.inl (Or.inr hit)))
    · exact Or.inl (Or.inl (Or.inr hun))
    · exact Or.inl (Or.inr hbl)
    · exact Or.inr hrv
    · exact Or.inl (Or.inl (Or.inl (Or.inl (Or.inl (Or.inl (Or.inl
        (Or.inr ⟨⟨hpt, hpi⟩, hd⟩)))))))
    · exact Or.inl (Or.inl (Or.inl (Or.inl (Or.inl (Or.inr ⟨⟨hpt, hpi⟩, hd⟩)))))

set_option maxHeartbeats 800000 in
/-- C6, amended claim.  `DiffSGRToNeotex` rebuilds from a reset exactly for
the transitions the code's `needsReset` covers: one of
dim/italic/underline/blink/reverse turned off, or either color leaving the
bright-Standard range (index ≥ 8 to Standard < 8 or to a non-Standard
variant).  For those transitions (with `previous` non-nil,
`current ≠ previous`, `current` not the default) the result is `"R0"`
followed by the absolute neotex list of `current`.  Turn-offs of bold,
hidden or strikethrough and non-Default→Default color changes do not
trigger the reset (and can produce an empty code list), which is what the
counterexample exhibits. -/
theorem claim_C6_amended (current previous : SGR) (h1 : current ≠ previous)
    (h2 : current ≠ NewSGR) (h : NeotexResetTrigger current previous) :
    DiffSGRToNeotex current (some previous) = "R0" :: SGRToNeotex current := by
  have hr : neotexNeedsReset current previous = true := (neotexNeedsReset_iff _ _).mpr h
  simp only [DiffSGRToNeotex, if_neg h1, if_neg h2, hr, if_true]
  congr 1
  apply List.filter_eq_self.mpr
  intro a ha
  have hne : a ≠ "R0" := fun he => R0_not_mem_SGRToNeotex current (he ▸ ha)
  simpa using hne

/-- Witness for the amended C6: previous = default+dim with red foreground,
current drops dim. -/
theorem claim_C6_witness :
    ({ NewSGR with FgColor := stdColor 1 } : SGR) ≠
      { NewSGR with FgColor := stdColor 1, Dim := true } ∧
    ({ NewSGR with FgColor := stdColor 1 } : SGR) ≠ NewSGR ∧
    NeotexResetTrigger { NewSGR with FgColor := stdColor 1 }
      { NewSGR with FgColor := stdColor 1, Dim := true } ∧
    DiffSGRToNeotex { NewSGR with FgColor := stdColor 1 }
        (some { NewSGR with FgColor := stdColor 1, Dim := true }) =
      "R0" :: SGRToNeotex { NewSGR with FgColor := stdColor 1 } :=
  ⟨by decide, by decide, by decide,
    claim_C6_amended { NewSGR with FgColor := stdColor 1 }
      { NewSGR with FgColor := stdColor 1, Dim := true }
      (by decide) (by decide) (by decide)⟩

/-- C8, counterexample.  The input `ESC [ 5 LF X` contains no `0x1A`, its
tokenization ends with a `CSIInterrupted` token, and the concatenated raw
fields cover only the first 4 bytes — the trailing `X` is never tokenized,
so the raw lengths do not sum to the input length. -/
theorem claim_C8_counterexample :
    (0x1A : Nat) ∉ ([27, 91, 53, 10, 88] : List Nat) ∧
    (Tokenize [27, 91, 53, 10, 88]).1.map Token.type =
      [TokenType.TokenCSIInterupted] ∧
    sumRaw (Tokenize [27, 91, 53, 10, 88]).1 ≠ ([27, 91, 53, 10, 88] : List Nat).length := by
  decide


/-! Self-contained list lemmas used for the erase-display analysis. -/

theorem list_take_ge {α : Type} : ∀ (l : List α) (n : Nat), l.length ≤ n → l.take n = l := by
  intro l
  induction l with
  | nil => intro n _; simp
  | cons a t ih =>
    intro n hn
    cases n with
    | zero => exact absurd hn (by simp)
    | succ m =>
      show a :: t.take m = a :: t
      rw [ih m (Nat.le_of_succ_le_succ hn)]

theorem list_drop_ge {α : Type} : ∀ (l : List α) (n : Nat), l.length ≤ n → l.drop n = [] := by
  intro l
  induction l with
  | nil => intro n _; simp
  | cons a t ih =>
    intro n hn
    cases n with
    | zero => exact absurd hn (by simp)
    | succ m => exact ih m (Nat.le_of_succ_le_succ hn)

theorem list_getD_ge {α : Type} (d : α) :
    ∀ (l : List α) (n : Nat), l.length ≤ n → l.getD n d = d := by
  intro l
  induction l with
  | nil => intro n _; rfl
  | cons a t ih =>
    intro n hn
    cases n with
    | zero => exact absurd hn (by simp)
    | succ m => exact ih m (Nat.le_of_succ_le_succ hn)

theorem list_set_ge {α : Type} :
    ∀ (l : List α) (n : Nat) (x : α), l.length ≤ n → l.set n x = l := by
  intro l
  induction l with
  | nil => intro n x _; rfl
  | cons a t ih =>
    intro n x hn
    cases n with
    | zero => exact absurd hn (by simp)
    | succ m =>
      show a :: t.set m x = a :: t
      rw [ih m x (Nat.le_of_succ_le_succ hn)]

theorem list_set_getD_self {α : Type} (d : α) (l : List α) :
    ∀ n, l.set n (l.getD n d) = l := by
  induction l with
  | nil => intro n; rfl
  | cons a t ih =>
    intro n
    cases n with
    | zero => rfl
    | succ m =>
      show a :: t.set m (t.getD m d) = a :: t
      rw [ih]

theorem list_getD_set {α : Type} (d : α) (l : List α) :
    ∀ n x, (l.set n x).getD n d = if n < l.length then x else d := by
  induction l with
  | nil =>
    intro n x
    rw [List.length_nil, if_neg (Nat.not_lt_zero n)]
    rfl
  | cons a t ih =>
    intro n x
    cases n with
    | zero =>
      rw [List.length_cons, if_pos (Nat.succ_pos _)]
      rfl
    | succ m =>
      show (t.set m x).getD m d = _
      rw [ih, List.length_cons]
      by_cases hm : m < t.length
      · rw [if_pos hm, if_pos (Nat.succ_lt_succ hm)]
      · rw [if_neg hm, if_neg (fun hc => hm (Nat.lt_of_succ_lt_succ hc))]

theorem list_getD_append_right {α : Type} (d : α) :
    ∀ (A B : List α) (n : Nat), A.length ≤ n → (A ++ B).getD n d = B.getD (n - A.length) d := by
  intro A
  induction A with
  | nil => intro B n _; simp
  | cons a t ih =>
    intro B n hn
    cases n with
    | zero => exact absurd hn (by simp)
    | succ m =>
      show (t ++ B).getD m d = B.getD (m + 1 - (t.length + 1)) d
      rw [ih B m (Nat.le_of_succ_le_succ hn)]
      congr 1
      omega

theorem list_set_append_right {α : Type} :
    ∀ (A B : List α) (n : Nat) (x : α), A.length ≤ n →
      (A ++ B).set n x = A ++ B.set (n - A.length) x := by
  intro A
  induction A with
  | nil => intro B n x _; simp
  | cons a t ih =>
    intro B n x hn
    cases n with
    | zero => exact absurd hn (by simp)
    | succ m =>
      show a :: (t ++ B).set m x = a :: (t ++ B.set (m + 1 - (t.length + 1)) x)
      have he : m - t.length = m + 1 - (t.length + 1) := by omega
      rw [ih B m x (Nat.le_of_succ_le_succ hn), he]

theorem list_drop_decomp {α : Type} (d : α) :
    ∀ (l : List α) (n : Nat), n < l.length → l.drop n = l.getD n d :: l.drop (n + 1) := by
  intro l
  induction l with
  | nil => intro n hn; simp at hn
  | cons a t ih =>
    intro n hn
    cases n with
    | zero => rfl
    | succ m =>
      show t.drop m = t.getD m d :: t.drop (m + 1)
      exact ih m (Nat.lt_of_succ_lt_succ hn)

theorem list_take_succ_getD {α : Type} (d : α) :
    ∀ (l : List α) (n : Nat), n < l.length → l.take (n + 1) = l.take n ++ [l.getD n d] := by
  intro l
  induction l with
  | nil => intro n hn; simp at hn
  | cons a t ih =>
    intro n hn
    cases n with
    | zero => rfl
    | succ m =>
      show a :: t.take (m + 1) = a :: (t.take m ++ [t.getD m d])
      rw [ih m (Nat.lt_of_succ_lt_succ hn)]

theorem clearPrefix_zero (row : List Cell) : clearPrefix 0 row = row := rfl

theorem clearPrefix_nil (w : Nat) : clearPrefix w [] = [] := by
  simp [clearPrefix]

theorem clearPrefix_set (row : List Cell) :
    ∀ w, (clearPrefix w row).set w emptyCell = clearPrefix (w + 1) row := by
  induction row with
  | nil =>
    intro w
    rw [clearPrefix_nil, clearPrefix_nil]
    rfl
  | cons c t ih =>
    intro w
    cases w with
    | zero =>
      rw [clearPrefix_zero]
      rfl
    | succ m =>
      have h1 : clearPrefix (m + 1) (c :: t) = emptyCell :: clearPrefix m t := rfl
      have h2 : clearPrefix (m + 2) (c :: t) = emptyCell :: clearPrefix (m + 1) t := rfl
      rw [h1, h2]
      show emptyCell :: (clearPrefix m t).set m emptyCell = _
      rw [ih]

/-- The monadic coercion of a `List Nat` to a `List Int`, as the elaborator
inserts it around `List.range` in the erase loops, is the elementwise cast. -/
theorem list_bind_pure_int (l : List Nat) :
    (l >>= (fun a => (pure ((a : Int)) : List Int))) = l.map (fun (a : Nat) => (a : Int)) := by
  induction l with
  | nil => rfl
  | cons a t ih =>
    show (a : Int) :: (t >>= (fun a => (pure ((a : Int)) : List Int))) =
      (a : Int) :: t.map (fun (a : Nat) => (a : Int))
    rw [ih]

/-- One pass of the mode-2 erase inner loop over columns `0..w-1` of row `y`
replaces the first `w` cells of that row with empty cells (and does nothing
for a negative row index). -/
theorem erase_inner_fold (w : Nat) (y : Int) : ∀ buf : List (List Cell),
    List.foldl (fun b2 x => setCell b2 y x emptyCell) buf
        ((List.range w).map (fun (a : Nat) => (a : Int))) =
      if 0 ≤ y then buf.set y.toNat (clearPrefix w (buf.getD y.toNat [])) else buf := by
  induction w with
  | zero =>
    intro buf
    rw [List.range_zero, List.map_nil]
    show buf = _
    split
    · rw [clearPrefix_zero, list_set_getD_self]
    · rfl
  | succ w ih =>
    intro buf
    rw [List.range_succ, List.map_append, List.foldl_append, ih]
    simp only [List.map_cons, List.map_nil, List.foldl_cons, List.foldl_nil]
    by_cases hy : 0 ≤ y
    · rw [if_pos hy, if_pos hy]
      unfold setCell
      rw [if_pos ⟨hy, Int.natCast_nonneg w⟩, Int.toNat_natCast, list_getD_set]
      by_cases hyl : y.toNat < buf.length
      · rw [if_pos hyl, List.set_set, clearPrefix_set]
      · rw [if_neg hyl]
        have hle : buf.length ≤ y.toNat := Nat.le_of_not_lt hyl
        rw [list_set_ge _ _ _ hle, list_set_ge _ _ _ hle, list_set_ge _ _ _ hle]
    · rw [if_neg hy, if_neg hy]
      unfold setCell
      rw [if_neg (fun hc => hy hc.1)]

/-- The mode-2 erase outer loop over rows `0..h-1` clears the first `w`
cells of each of the first `h` rows. -/
theorem erase_outer_fold (w : Nat) : ∀ (h : Nat) (buf : List (List Cell)),
    List.foldl
        (fun b y => List.foldl (fun b2 x => setCell b2 y x emptyCell) b
          ((List.range w).map (fun (a : Nat) => (a : Int))))
        buf ((List.range h).map (fun (a : Nat) => (a : Int))) =
      (buf.take h).map (fun row => clearPrefix w row) ++ buf.drop h := by
  intro h
  induction h with
  | zero =>
    intro buf
    rw [List.range_zero, List.map_nil]
    show buf = _
    simp
  | succ h ih =>
    intro buf
    rw [List.range_succ, List.map_append, List.foldl_append, ih]
    simp only [List.map_cons, List.map_nil, List.foldl_cons, List.foldl_nil]
    rw [erase_inner_fold w ((h : Nat) : Int), if_pos (Int.natCast_nonneg h), Int.toNat_natCast]
    rcases Nat.lt_or_ge h buf.length with hl | hl
    · have hlen : ((buf.take h).map (fun row => clearPrefix w row)).length = h := by
        rw [List.length_map, List.length_take]
        omega
      have hg : (((buf.take h).map (fun row => clearPrefix w row)) ++ buf.drop h).getD h [] =
          buf.getD h [] := by
        rw [list_getD_append_right ([] : List Cell) _ _ _ (le_of_eq hlen), hlen, Nat.sub_self,
          list_drop_decomp ([] : List Cell) buf h hl]
        rfl
      rw [hg, list_set_append_right _ _ _ _ (le_of_eq hlen), hlen, Nat.sub_self,
        list_drop_decomp ([] : List Cell) buf h hl,
        list_take_succ_getD ([] : List Cell) buf h hl, List.map_append]
      simp only [List.map_cons, List.map_nil, List.set_cons_zero, List.append_assoc,
        List.cons_append, List.nil_append]
    · have ht := list_take_ge buf h hl
      have hd := list_drop_ge buf h hl
      have ht1 := list_take_ge buf (h + 1) (by omega)
      have hd1 := list_drop_ge buf (h + 1) (by omega)
      rw [ht, hd, ht1, hd1, List.append_nil,
        list_set_ge _ _ _ (by rw [List.length_map]; omega)]

/-- C5, amended claim.  On a well-formed buffer, `CSI 2 J` (the raw bytes
`ESC [ 2 J` with parameter `"2"`) clears every cell to the empty cell
`{char 0, default SGR}` but leaves the cursor exactly where it was — the
code's `eraseDisplay` never touches `cursorX`/`cursorY`, contradicting only
the reset-to-origin half of the original claim (see the counterexample). -/
theorem claim_C5_amended (vt : VirtualTerminal) (hwf : vt.WFDims) :
    (vt.applyToken
        { type := TokenType.TokenCSI, raw := [27, 91, 50, 74],
          parameters := [[50]] }).buffer =
      vt.buffer.map (fun row => row.map (fun _ => emptyCell)) ∧
    (vt.applyToken
        { type := TokenType.TokenCSI, raw := [27, 91, 50, 74],
          parameters := [[50]] }).cursorX = vt.cursorX ∧
    (vt.applyToken
        { type := TokenType.TokenCSI, raw := [27, 91, 50, 74],
          parameters := [[50]] }).cursorY = vt.cursorY := by
  refine ⟨?_, rfl, rfl⟩
  have hb : (vt.applyToken
        { type := TokenType.TokenCSI, raw := [27, 91, 50, 74],
          parameters := [[50]] }).buffer =
      List.foldl
        (fun b y => List.foldl (fun b2 x => setCell b2 y x emptyCell) b
          (List.range vt.width.toNat >>= (fun a => (pure ((a : Int)) : List Int))))
        vt.buffer
        (List.range vt.height.toNat >>= (fun a => (pure ((a : Int)) : List Int))) := rfl
  rw [hb]
  simp only [list_bind_pure_int]
  rw [erase_outer_fold]
  obtain ⟨hlen, hrow⟩ := hwf
  rw [← hlen, list_take_ge vt.buffer _ (le_refl _), list_drop_ge vt.buffer _ (le_refl _),
    List.append_nil]
  apply List.map_congr_left
  intro row hmem
  have hr := hrow row hmem
  unfold clearPrefix
  rw [list_take_ge row _ (le_of_eq hr), list_drop_ge row _ (le_of_eq hr), List.append_nil]

/-- Witness for the amended C5 on a concrete 2×2 terminal. -/
theorem claim_C5_witness :
    (NewVirtualTerminal 2 2 "utf8" false).WFDims ∧
    ((NewVirtualTerminal 2 2 "utf8" false).applyToken
        { type := TokenType.TokenCSI, raw := [27, 91, 50, 74],
          parameters := [[50]] }).buffer =
      (NewVirtualTerminal 2 2 "utf8" false).buffer.map
        (fun row => row.map (fun _ => emptyCell)) ∧
    ((NewVirtualTerminal 2 2 "utf8" false).applyToken
        { type := TokenType.TokenCSI, raw := [27, 91, 50, 74],
          parameters := [[50]] }).cursorX =
      (NewVirtualTerminal 2 2 "utf8" false).cursorX :=
  ⟨by decide,
    (claim_C5_amended (NewVirtualTerminal 2 2 "utf8" false) (by decide)).1,
    (claim_C5_amended (NewVirtualTerminal 2 2 "utf8" false) (by decide)).2.1⟩

/-! C9: the neotex decoder's default mnemonics and the impossibility of a
`ColorDefault` component on the neotex decoding path. -/

theorem applyNeotexCode_preserves (c : String) (s : SGR)
    (hf : s.FgColor.type ≠ ColorType.ColorDefault)
    (hb : s.BgColor.type ≠ ColorType.ColorDefault) :
    (ApplyNeotexCode c s).FgColor.type ≠ ColorType.ColorDefault ∧
    (ApplyNeotexCode c s).BgColor.type ≠ ColorType.ColorDefault := by
  unfold ApplyNeotexCode
  split
  · rename_i modifier heq
    unfold neotexToSGRModifier at heq
    repeat' split at heq
    all_goals
      first
        | exact Option.noConfusion heq
        | (injection heq with heq2; subst heq2;
           exact ⟨fun hcon => ColorType.noConfusion hcon, hb⟩)
        | (injection heq with heq2; subst heq2;
           exact ⟨hf, fun hcon => ColorType.noConfusion hcon⟩)
        | (injection heq with heq2; subst heq2; exact ⟨hf, hb⟩)
        | (injection heq with heq2; subst heq2;
           exact ⟨fun hcon => ColorType.noConfusion hcon,
             fun hcon => ColorType.noConfusion hcon⟩)
  · constructor <;>
      (simp only []
       repeat' split) <;>
      first
        | exact hf
        | exact hb
        | exact fun hcon => ColorType.noConfusion hcon

theorem applyNeotex_fold_preserves (codes : List String) : ∀ s : SGR,
    s.FgColor.type ≠ ColorType.ColorDefault →
    s.BgColor.type ≠ ColorType.ColorDefault →
    ((codes.foldl (fun s c => ApplyNeotexCode c s) s).FgColor.type ≠ ColorType.ColorDefault ∧
     (codes.foldl (fun s c => ApplyNeotexCode c s) s).BgColor.type ≠ ColorType.ColorDefault) := by
  induction codes with
  | nil => intro s hf hb; exact ⟨hf, hb⟩
  | cons c rest ih =>
    intro s hf hb
    have h := applyNeotexCode_preserves c s hf hb
    exact ih (ApplyNeotexCode c s) h.1 h.2

/-- C9.  The neotex decoder maps `FD` to foreground Standard(7) and `BD` to
background Standard(0) — the components of the non-standard default-SGR
constant — not to the `Default` variant; consequently decoding any list of
neotex codes from the default state never yields a `ColorDefault`
foreground or background, whereas the ANSI path's `ApplyParams` produces
`ColorDefault` for SGR codes 39 and 49. -/
theorem claim_C9 :
    (∀ s : SGR, ApplyNeotexCode "FD" s = { s with FgColor := stdColor 7 }) ∧
    (∀ s : SGR, ApplyNeotexCode "BD" s = { s with BgColor := stdColor 0 }) ∧
    (∀ codes : List String,
      ((codes.foldl (fun s c => ApplyNeotexCode c s) NewSGR).FgColor.type ≠
        ColorType.ColorDefault) ∧
      ((codes.foldl (fun s c => ApplyNeotexCode c s) NewSGR).BgColor.type ≠
        ColorType.ColorDefault)) ∧
    (SGR.ApplyParams NewSGR [39]).FgColor.type = ColorType.ColorDefault ∧
    (SGR.ApplyParams NewSGR [49]).BgColor.type = ColorType.ColorDefault :=
  ⟨fun s => rfl, fun s => rfl,
   fun codes => applyNeotex_fold_preserves codes NewSGR (by decide) (by decide),
   by decide, by decide⟩

/-! C10: the short-line break in `splitNeotexLines`. -/

set_option maxHeartbeats 800000 in
/-- C10.  In `SplitNeotexFormat`'s per-line loop, the first line shorter
than `width + 3` runes ends processing: it and every later line — even
well-formed ones — are silently dropped, and only the already-consumed
prefix is returned (no error).  A separator mismatch at rune position
`width` on a sufficiently long line, by contrast, is fatal and reports the
position, the runes found, and the 0-based line number. -/
theorem claim_C10 (width n : Nat) (pre post : List (List Char)) (line : List Char)
    (hpre : ∀ l ∈ pre, NeotexLineOK width l) :
    (line.length < width + 3 →
      splitNeotexLines width n (pre ++ line :: post) =
        Except.ok (pre.map (fun l => l.take width), pre.map (fun l => l.drop (width + 3)))) ∧
    (width + 3 ≤ line.length → (line.drop width).take 3 ≠ [' ', '|', ' '] →
      splitNeotexLines width n (pre ++ line :: post) =
        Except.error ⟨width, (line.drop width).take 3, n + pre.length⟩) := by
  revert hpre
  induction pre generalizing n with
  | nil =>
    intro _
    constructor
    · intro hshort
      show splitNeotexLines width n (line :: post) = _
      simp only [splitNeotexLines]
      rw [if_pos hshort]
      rfl
    · intro hlong hbad
      show splitNeotexLines width n (line :: post) = _
      simp only [splitNeotexLines]
      rw [if_neg (by omega), if_pos hbad]
      rfl
  | cons p t ih =>
    intro hpre
    have hp := hpre p (by simp)
    have hrest : ∀ l ∈ t, NeotexLineOK width l := fun l hl => hpre l (by simp [hl])
    have hp1 := hp.1
    constructor
    · intro hshort
      have hih := (ih n.succ hrest).1 hshort
      show splitNeotexLines width n (p :: (t ++ line :: post)) = _
      simp only [splitNeotexLines]
      rw [if_neg (by omega), if_neg (fun hcon => hcon hp.2), hih]
      rfl
    · intro hlong hbad
      have hih := (ih n.succ hrest).2 hlong hbad
      show splitNeotexLines width n (p :: (t ++ line :: post)) = _
      simp only [splitNeotexLines]
      rw [if_neg (by omega), if_neg (fun hcon => hcon hp.2), hih]
      have he : n.succ + t.length = n + (p :: t).length := by
        rw [List.length_cons]
        omega
      rw [← he]

/-- Witness for C10: a well-formed first line, then a short line, then a
further well-formed line that is silently dropped. -/
theorem claim_C10_witness :
    (∀ l ∈ [['a', 'b', ' ', '|', ' ', 'Z']], NeotexLineOK 2 l) ∧
    (['x'] : List Char).length < 2 + 3 ∧
    splitNeotexLines 2 0
        ([['a', 'b', ' ', '|', ' ', 'Z']] ++ ['x'] :: [['c', 'd', ' ', '|', ' ', 'W']]) =
      Except.ok ([['a', 'b', ' ', '|', ' ', 'Z']].map (fun l => l.take 2),
        [['a', 'b', ' ', '|', ' ', 'Z']].map (fun l => l.drop (2 + 3))) :=
  ⟨by decide, by decide,
    (claim_C10 2 0 [['a', 'b', ' ', '|', ' ', 'Z']] [['c', 'd', ' ', '|', ' ', 'W']]
      ['x'] (by decide)).1 (by decide)⟩

/-! C7/C8: tokenizer step and loop invariants. -/

theorem sumRaw_concat (l : List Token) (t : Token) :
    sumRaw (l ++ [t]) = sumRaw l + t.raw.length := by
  simp [sumRaw]

theorem sauceCount_concat (l : List Token) (t : Token) :
    sauceCount (l ++ [t]) =
      sauceCount l + (if t.type = TokenType.TokenSauce then 1 else 0) := by
  by_cases hs : t.type = TokenType.TokenSauce
  · simp [sauceCount, List.filter_append, hs]
  · simp [sauceCount, List.filter_append, hs]

theorem sauceCount_eq_zero (l : List Token) (h : ∀ v ∈ l, v.type ≠ TokenType.TokenSauce) :
    sauceCount l = 0 := by
  unfold sauceCount
  rw [List.filter_eq_nil_iff.mpr]
  · rfl
  · intro a ha
    simpa using h a ha

theorem collectParams_le : ∀ (l current : List Nat) (acc : List (List Nat)),
    (collectParams l current acc).2 ≤ l.length := by
  intro l
  induction l with
  | nil => intro current acc; exact Nat.le_refl 0
  | cons b rest ih =>
    intro current acc
    simp only [collectParams]
    split
    · exact Nat.succ_le_succ (ih _ _)
    · split
      · exact Nat.succ_le_succ (ih _ _)
      · split
        · exact Nat.succ_le_succ (ih _ _)
        · exact Nat.zero_le _

theorem dcsScan_le : ∀ l : List Nat, (dcsScan l).1 ≤ l.length := by
  intro l
  induction l with
  | nil => exact Nat.le_refl 0
  | cons b rest ih =>
    simp only [dcsScan]
    split
    · rename_i h
      have h1 : 0 < rest.length := List.length_pos.mpr h.2.1
      show 2 ≤ rest.length + 1
      omega
    · split
      · show 1 ≤ rest.length + 1
        omega
      · show (dcsScan rest).1 + 1 ≤ rest.length + 1
        exact Nat.succ_le_succ ih

theorem oscScan_le : ∀ l : List Nat, (oscScan l).1 ≤ l.length := by
  intro l
  induction l with
  | nil => exact Nat.le_refl 0
  | cons b rest ih =>
    simp only [oscScan]
    split
    · show 1 ≤ rest.length + 1
      omega
    · split
      · rename_i h
        have h1 : 0 < rest.length := List.length_pos.mpr h.2.1
        show 2 ≤ rest.length + 1
        omega
      · split
        · show 1 ≤ rest.length + 1
          omega
        · show (oscScan rest).1 + 1 ≤ rest.length + 1
          exact Nat.succ_le_succ ih

theorem utf8DecodeRune_size (b : Nat) (rest : List Nat) :
    1 ≤ (utf8DecodeRune (b :: rest)).2 ∧ (utf8DecodeRune (b :: rest)).2 ≤ rest.length + 1 := by
  simp only [utf8DecodeRune]
  repeat' split
  all_goals refine ⟨?_, ?_⟩ <;> simp

theorem textRunAux_le : ∀ (fuel : Nat) (l : List Nat), (textRunAux fuel l).1 ≤ l.length := by
  intro fuel
  induction fuel with
  | zero => intro l; exact Nat.zero_le _
  | succ fuel ih =>
    intro l
    cases l with
    | nil => exact Nat.zero_le _
    | cons b rest =>
      simp only [textRunAux]
      split
      · exact Nat.zero_le _
      · have hs := utf8DecodeRune_size b rest
        have hr := ih (rest.drop ((utf8DecodeRune (b :: rest)).2 - 1))
        have hd : (rest.drop ((utf8DecodeRune (b :: rest)).2 - 1)).length =
            rest.length - ((utf8DecodeRune (b :: rest)).2 - 1) := by simp
        show ((utf8DecodeRune (b :: rest)).2).max 1 +
            (textRunAux fuel (rest.drop ((utf8DecodeRune (b :: rest)).2 - 1))).1 ≤
          rest.length + 1
        rw [Nat.max_eq_max, max_eq_left hs.1]
        omega

theorem textRun_pos (b : Nat) (rest : List Nat) (hb : ¬b < 0x20) :
    1 ≤ (textRun (b :: rest)).1 := by
  show 1 ≤ (textRunAux (rest.length + 1) (b :: rest)).1
  simp only [textRunAux]
  rw [if_neg hb]
  show 1 ≤ ((utf8DecodeRune (b :: rest)).2).max 1 +
      (textRunAux rest.length (rest.drop ((utf8DecodeRune (b :: rest)).2 - 1))).1
  rw [Nat.max_eq_max]
  have hm := Nat.le_max_right ((utf8DecodeRune (b :: rest)).2) 1
  omega

theorem parseCSIStep_ok (runePos a b : Nat) (l : List Nat) :
    1 ≤ (parseCSIStep runePos (a :: b :: l)).consumed ∧
    (parseCSIStep runePos (a :: b :: l)).consumed ≤ l.length + 2 ∧
    ((parseCSIStep runePos (a :: b :: l)).tok.type = TokenType.TokenSauce →
      (parseCSIStep runePos (a :: b :: l)).tok.raw.length + 1 =
        (parseCSIStep runePos (a :: b :: l)).consumed ∧
      (parseCSIStep runePos (a :: b :: l)).consumed = l.length + 2) ∧
    ((parseCSIStep runePos (a :: b :: l)).tok.type ≠ TokenType.TokenSauce →
      (parseCSIStep runePos (a :: b :: l)).tok.raw.length =
        (parseCSIStep runePos (a :: b :: l)).consumed) ∧
    (parseCSIStep runePos (a :: b :: l)).tok.type ≠ TokenType.TokenSauce := by
  have hle : (collectParams l [] []).2 ≤ l.length := collectParams_le l [] []
  have hsub : (a :: b :: l).drop 2 = l := rfl
  have h2 : (a :: b :: l).length = l.length + 2 := rfl
  simp only [parseCSIStep]
  rw [hsub]
  by_cases hcp : (collectParams l [] []).2 = l.length
  · rw [if_pos hcp]
    refine ⟨?_, ?_, fun h => absurd h (fun h2 => TokenType.noConfusion h2), fun _ => ?_,
      fun h => TokenType.noConfusion h⟩
    · show 1 ≤ 2 + (collectParams l [] []).2
      omega
    · show 2 + (collectParams l [] []).2 ≤ l.length + 2
      omega
    · show ((a :: b :: l).take (2 + (collectParams l [] []).2)).length =
        2 + (collectParams l [] []).2
      rw [List.length_take]
      omega
  · rw [if_neg hcp]
    have hlt : (collectParams l [] []).2 < l.length := Nat.lt_of_le_of_ne hle hcp
    refine ⟨?_, ?_, ?_, fun _ => ?_, ?_⟩
    · show 1 ≤ 2 + (collectParams l [] []).2 + 1
      omega
    · show 2 + (collectParams l [] []).2 + 1 ≤ l.length + 2
      omega
    · intro h
      exfalso
      revert h
      repeat' split
      all_goals exact fun h => TokenType.noConfusion h
    · show (if _ then _ else _ : Token).raw.length = 2 + (collectParams l [] []).2 + 1
      repeat' split
      all_goals
        show ((a :: b :: l).take (2 + (collectParams l [] []).2 + 1)).length =
          2 + (collectParams l [] []).2 + 1
      all_goals rw [List.length_take]
      all_goals omega
    · show (if _ then _ else _ : Token).type ≠ TokenType.TokenSauce
      repeat' split
      all_goals exact fun h => TokenType.noConfusion h

theorem parseDCSStep_ok (runePos a b : Nat) (l : List Nat) :
    1 ≤ (parseDCSStep runePos (a :: b :: l)).consumed ∧
    (parseDCSStep runePos (a :: b :: l)).consumed ≤ l.length + 2 ∧
    ((parseDCSStep runePos (a :: b :: l)).tok.type = TokenType.TokenSauce →
      (parseDCSStep runePos (a :: b :: l)).tok.raw.length + 1 =
        (parseDCSStep runePos (a :: b :: l)).consumed ∧
      (parseDCSStep runePos (a :: b :: l)).consumed = l.length + 2) ∧
    ((parseDCSStep runePos (a :: b :: l)).tok.type ≠ TokenType.TokenSauce →
      (parseDCSStep runePos (a :: b :: l)).tok.raw.length =
        (parseDCSStep runePos (a :: b :: l)).consumed) ∧
    (parseDCSStep runePos (a :: b :: l)).tok.type ≠ TokenType.TokenSauce := by
  have hle := dcsScan_le l
  have hsub : (a :: b :: l).drop 2 = l := rfl
  have h2 : (a :: b :: l).length = l.length + 2 := rfl
  simp only [parseDCSStep]
  rw [hsub]
  refine ⟨?_, ?_, fun h => absurd h (fun h2 => TokenType.noConfusion h2), fun _ => ?_,
    fun h => TokenType.noConfusion h⟩
  · show 1 ≤ 2 + (dcsScan l).1
    omega
  · show 2 + (dcsScan l).1 ≤ l.length + 2
    omega
  · show ((a :: b :: l).take (2 + (dcsScan l).1)).length = 2 + (dcsScan l).1
    rw [List.length_take]
    omega

theorem parseOSCStep_ok (runePos a b : Nat) (l : List Nat) :
    1 ≤ (parseOSCStep runePos (a :: b :: l)).consumed ∧
    (parseOSCStep runePos (a :: b :: l)).consumed ≤ l.length + 2 ∧
    ((parseOSCStep runePos (a :: b :: l)).tok.type = TokenType.TokenSauce →
      (parseOSCStep runePos (a :: b :: l)).tok.raw.length + 1 =
        (parseOSCStep runePos (a :: b :: l)).consumed ∧
      (parseOSCStep runePos (a :: b :: l)).consumed = l.length + 2) ∧
    ((parseOSCStep runePos (a :: b :: l)).tok.type ≠ TokenType.TokenSauce →
      (parseOSCStep runePos (a :: b :: l)).tok.raw.length =
        (parseOSCStep runePos (a :: b :: l)).consumed) ∧
    (parseOSCStep runePos (a :: b :: l)).tok.type ≠ TokenType.TokenSauce := by
  have hle := oscScan_le l
  have hsub : (a :: b :: l).drop 2 = l := rfl
  have h2 : (a :: b :: l).length = l.length + 2 := rfl
  simp only [parseOSCStep]
  rw [hsub]
  refine ⟨?_, ?_, fun h => absurd h (fun h2 => TokenType.noConfusion h2), fun _ => ?_,
    fun h => TokenType.noConfusion h⟩
  · show 1 ≤ 2 + (oscScan l).1
    omega
  · show 2 + (oscScan l).1 ≤ l.length + 2
    omega
  · show ((a :: b :: l).take (2 + (oscScan l).1)).length = 2 + (oscScan l).1
    rw [List.length_take]
    omega

theorem parseOtherEscapeStep_ok (runePos a next : Nat) (l : List Nat) :
    1 ≤ (parseOtherEscapeStep runePos (a :: next :: l)).consumed ∧
    (parseOtherEscapeStep runePos (a :: next :: l)).consumed ≤ l.length + 2 ∧
    ((parseOtherEscapeStep runePos (a :: next :: l)).tok.type = TokenType.TokenSauce →
      (parseOtherEscapeStep runePos (a :: next :: l)).tok.raw.length + 1 =
        (parseOtherEscapeStep runePos (a :: next :: l)).consumed ∧
      (parseOtherEscapeStep runePos (a :: next :: l)).consumed = l.length + 2) ∧
    ((parseOtherEscapeStep runePos (a :: next :: l)).tok.type ≠ TokenType.TokenSauce →
      (parseOtherEscapeStep runePos (a :: next :: l)).tok.raw.length =
        (parseOtherEscapeStep runePos (a :: next :: l)).consumed) ∧
    (parseOtherEscapeStep runePos (a :: next :: l)).tok.type ≠ TokenType.TokenSauce := by
  have h2 : (a :: next :: l).length = l.length + 2 := rfl
  simp only [parseOtherEscapeStep]
  by_cases hc : (next = 40 ∨ next = 41 ∨ next = 35) ∧ l ≠ []
  · rw [if_pos hc]
    have h1 : 0 < l.length := List.length_pos.mpr hc.2
    refine ⟨?_, ?_, fun h => absurd h (fun h2 => TokenType.noConfusion h2), fun _ => ?_,
      fun h => TokenType.noConfusion h⟩
    · show 1 ≤ 3
      omega
    · show 3 ≤ l.length + 2
      omega
    · show ((a :: next :: l).take 3).length = 3
      rw [List.length_take]
      omega
  · rw [if_neg hc]
    refine ⟨?_, ?_, fun h => absurd h (fun h2 => TokenType.noConfusion h2), fun _ => ?_,
      fun h => TokenType.noConfusion h⟩
    · show 1 ≤ 2
      omega
    · show 2 ≤ l.length + 2
      omega
    · show ((a :: next :: l).take 2).length = 2
      rw [List.length_take]
      omega

theorem parseEscapeStep_ok (runePos c : Nat) (rest : List Nat) :
    1 ≤ (parseEscapeStep runePos (c :: rest)).consumed ∧
    (parseEscapeStep runePos (c :: rest)).consumed ≤ rest.length + 1 ∧
    ((parseEscapeStep runePos (c :: rest)).tok.type = TokenType.TokenSauce →
      (parseEscapeStep runePos (c :: rest)).tok.raw.length + 1 =
        (parseEscapeStep runePos (c :: rest)).consumed ∧
      (parseEscapeStep runePos (c :: rest)).consumed = rest.length + 1) ∧
    ((parseEscapeStep runePos (c :: rest)).tok.type ≠ TokenType.TokenSauce →
      (parseEscapeStep runePos (c :: rest)).tok.raw.length =
        (parseEscapeStep runePos (c :: rest)).consumed) ∧
    (parseEscapeStep runePos (c :: rest)).tok.type ≠ TokenType.TokenSauce := by
  cases rest with
  | nil =>
    simp only [parseEscapeStep]
    refine ⟨?_, ?_, fun h => absurd h (fun h2 => TokenType.noConfusion h2), fun _ => ?_,
      fun h => TokenType.noConfusion h⟩
    · show 1 ≤ 1
      omega
    · show (1 : Nat) ≤ 1
      omega
    · show ([c].take 1).length = 1
      rfl
  | cons next l =>
    simp only [parseEscapeStep]
    by_cases h91 : next = 91
    · rw [if_pos h91]
      exact parseCSIStep_ok runePos c next l
    · rw [if_neg h91]
      by_cases h80 : next = 80
      · rw [if_pos h80]
        exact parseDCSStep_ok runePos c next l
      · rw [if_neg h80]
        by_cases h93 : next = 93
        · rw [if_pos h93]
          exact parseOSCStep_ok runePos c next l
        · rw [if_neg h93]
          by_cases h92 : next = 92
          · rw [if_pos h92]
            refine ⟨?_, ?_, fun h => absurd h (fun h2 => TokenType.noConfusion h2),
              fun _ => ?_, fun h => TokenType.noConfusion h⟩
            · show 1 ≤ 2
              omega
            · show 2 ≤ l.length + 2
              omega
            · show ((c :: next :: l).take 2).length = 2
              rfl
          · rw [if_neg h92]
            by_cases hC1 : next = 68 ∨ next = 69 ∨ next = 72 ∨ next = 77
            · rw [if_pos hC1]
              refine ⟨?_, ?_, fun h => absurd h (fun h2 => TokenType.noConfusion h2),
                fun _ => ?_, fun h => TokenType.noConfusion h⟩
              · show 1 ≤ 2
                omega
              · show 2 ≤ l.length + 2
                omega
              · show ((c :: next :: l).take 2).length = 2
                rfl
            · rw [if_neg hC1]
              exact parseOtherEscapeStep_ok runePos c next l

/-- One step of `nextToken` on a nonempty input: it always consumes between
1 byte and the whole remaining input; the token's `raw` covers exactly the
consumed bytes except for a Sauce token, which drops the single `0x1A`
marker byte and always consumes to the end; Sauce tokens only arise from a
leading `0x1A`. -/
theorem nextTokenStep_spec (pos runePos c : Nat) (rest : List Nat) :
    1 ≤ (nextTokenStep pos runePos (c :: rest)).consumed ∧
    (nextTokenStep pos runePos (c :: rest)).consumed ≤ rest.length + 1 ∧
    ((nextTokenStep pos runePos (c :: rest)).tok.type = TokenType.TokenSauce →
      (nextTokenStep pos runePos (c :: rest)).tok.raw.length + 1 =
        (nextTokenStep pos runePos (c :: rest)).consumed ∧
      (nextTokenStep pos runePos (c :: rest)).consumed = rest.length + 1) ∧
    ((nextTokenStep pos runePos (c :: rest)).tok.type ≠ TokenType.TokenSauce →
      (nextTokenStep pos runePos (c :: rest)).tok.raw.length =
        (nextTokenStep pos runePos (c :: rest)).consumed) ∧
    (c ≠ 0x1A → (nextTokenStep pos runePos (c :: rest)).tok.type ≠ TokenType.TokenSauce) := by
  simp only [nextTokenStep]
  by_cases hc : c < 0x20
  · rw [if_pos hc]
    by_cases h27 : c = 0x1B
    · rw [if_pos h27]
      obtain ⟨h1, h2, h3, h4, h5⟩ := parseEscapeStep_ok runePos c rest
      exact ⟨h1, h2, h3, h4, fun _ => h5⟩
    · rw [if_neg h27]
      by_cases h26 : c = 0x1A
      · rw [if_pos h26]
        refine ⟨?_, ?_, fun _ => ⟨?_, ?_⟩, ?_, ?_⟩
        · show 1 ≤ rest.length + 1
          omega
        · show rest.length + 1 ≤ rest.length + 1
          omega
        · show rest.length + 1 = rest.length + 1
          rfl
        · rfl
        · intro h
          exact absurd rfl h
        · intro hne
          exact absurd h26 hne
      · rw [if_neg h26]
        refine ⟨?_, ?_, fun h => absurd h (fun h2 => TokenType.noConfusion h2), fun _ => ?_,
          fun _ => fun h => TokenType.noConfusion h⟩
        · show 1 ≤ 1
          omega
        · show 1 ≤ rest.length + 1
          omega
        · show [c].length = 1
          rfl
  · rw [if_neg hc]
    have hpos := textRun_pos c rest hc
    have hle : (textRun (c :: rest)).1 ≤ rest.length + 1 := textRunAux_le _ _
    refine ⟨hpos, hle, fun h => absurd h (fun h2 => TokenType.noConfusion h2), fun _ => ?_,
      fun _ => fun h => TokenType.noConfusion h⟩
    show ((c :: rest).take (textRun (c :: rest)).1).length = (textRun (c :: rest)).1
    rw [List.length_take]
    have h2 : (c :: rest).length = rest.length + 1 := rfl
    omega

theorem tokenizeLoop_nil (fuel : Nat) (st : TokState) : tokenizeLoop fuel [] st = st := by
  cases fuel <;> rfl

/-- The tokenizer loop invariant: starting from a state whose position is
the total consumed byte count (raw bytes plus one dropped marker byte per
Sauce token) and whose token list has no `CSIInterupted` entry, the loop
(with enough fuel) preserves that accounting; it consumes the whole input
exactly when no `CSIInterupted` token is produced, leaves `posFirstBad`
untouched in that case, and otherwise the interrupted token is last,
`posFirstBad` is the final position, and no Sauce token can coexist with
it. -/
theorem tokenizeLoop_spec : ∀ (fuel : Nat) (remaining : List Nat) (st res : TokState),
    res = tokenizeLoop fuel remaining st →
    remaining.length ≤ fuel →
    (∀ t ∈ st.tokens, t.type ≠ TokenType.TokenCSIInterupted) →
    st.pos = sumRaw st.tokens + sauceCount st.tokens →
    (res.pos = sumRaw res.tokens + sauceCount res.tokens ∧
     ((0x1A : Nat) ∉ remaining → sauceCount res.tokens = sauceCount st.tokens) ∧
     ((∀ t ∈ res.tokens, t.type ≠ TokenType.TokenCSIInterupted) →
       res.pos = st.pos + remaining.length ∧ res.posFirstBad = st.posFirstBad) ∧
     (∀ u ∈ res.tokens, u.type = TokenType.TokenCSIInterupted →
       res.tokens.getLast? = some u ∧ res.posFirstBad = res.pos) ∧
     ((∀ t ∈ st.tokens, t.type ≠ TokenType.TokenSauce) →
       (∃ u ∈ res.tokens, u.type = TokenType.TokenCSIInterupted) →
       ∀ v ∈ res.tokens, v.type ≠ TokenType.TokenSauce)) := by
  intro fuel
  induction fuel with
  | zero =>
    intro remaining st res hres hlen hnoInt hinv
    have hrem : remaining = [] := List.eq_nil_of_length_eq_zero (Nat.le_zero.mp hlen)
    subst hrem
    subst hres
    refine ⟨hinv, fun _ => rfl, fun _ => ⟨rfl, rfl⟩, ?_, ?_⟩
    · intro u hu hut
      exact absurd hut (hnoInt u hu)
    · rintro _ ⟨u, hu, hut⟩
      exact absurd hut (hnoInt u hu)
  | succ fuel ih =>
    intro remaining st res hres hlen hnoInt hinv
    cases remaining with
    | nil =>
      subst hres
      refine ⟨hinv, fun _ => rfl, fun _ => ⟨rfl, rfl⟩, ?_, ?_⟩
      · intro u hu hut
        exact absurd hut (hnoInt u hu)
      · rintro _ ⟨u, hu, hut⟩
        exact absurd hut (hnoInt u hu)
    | cons c rest =>
      subst hres
      simp only [tokenizeLoop]
      obtain ⟨hs1, hs2, hsauce, hnsauce, hne26⟩ := nextTokenStep_spec st.pos st.runePos c rest
      generalize hrg : nextTokenStep st.pos st.runePos (c :: rest) = r at hs1 hs2 hsauce hnsauce hne26 ⊢
      by_cases hint : r.tok.type = TokenType.TokenCSIInterupted
      · rw [if_pos hint, if_pos hint]
        have hnotsauce : r.tok.type ≠ TokenType.TokenSauce := by
          rw [hint]
          exact fun h => TokenType.noConfusion h
        have hraw := hnsauce hnotsauce
        refine ⟨?_, ?_, ?_, ?_, ?_⟩
        · show st.pos + r.consumed =
            sumRaw (st.tokens ++ [r.tok]) + sauceCount (st.tokens ++ [r.tok])
          rw [sumRaw_concat, sauceCount_concat, if_neg hnotsauce]
          omega
        · intro _
          show sauceCount (st.tokens ++ [r.tok]) = sauceCount st.tokens
          rw [sauceCount_concat, if_neg hnotsauce]
          rfl
        · intro hni
          exact absurd hint (hni r.tok (by simp))
        · intro u hu hut
          rcases List.mem_append.mp hu with h1 | h1
          · exact absurd hut (hnoInt u h1)
          · have hur : u = r.tok := by simpa using h1
            subst hur
            exact ⟨List.getLast?_concat _, rfl⟩
        · intro hns _ v hv
          rcases List.mem_append.mp hv with h1 | h1
          · exact hns v h1
          · have hvr : v = r.tok := by simpa using h1
            subst hvr
            exact hnotsauce
      · rw [if_neg hint, if_neg hint]
        have hlen2 : ((c :: rest).drop r.consumed).length ≤ fuel := by
          rw [List.length_drop]
          have hc2 : (c :: rest).length = rest.length + 1 := rfl
          omega
        have hnoInt' : ∀ t ∈ st.tokens ++ [r.tok],
            t.type ≠ TokenType.TokenCSIInterupted := by
          intro t ht
          rcases List.mem_append.mp ht with h1 | h1
          · exact hnoInt t h1
          · have htr : t = r.tok := by simpa using h1
            subst htr
            exact hint
        by_cases hsc : r.tok.type = TokenType.TokenSauce
        · have hcons := (hsauce hsc).2
          have hdrop : (c :: rest).drop r.consumed = [] := by
            apply List.eq_nil_of_length_eq_zero
            rw [List.length_drop]
            have hc2 : (c :: rest).length = rest.length + 1 := rfl
            omega
          rw [hdrop, tokenizeLoop_nil]
          refine ⟨?_, ?_, ?_, ?_, ?_⟩
          · show st.pos + r.consumed =
              sumRaw (st.tokens ++ [r.tok]) + sauceCount (st.tokens ++ [r.tok])
            rw [sumRaw_concat, sauceCount_concat, if_pos hsc]
            have hraw1 := (hsauce hsc).1
            omega
          · intro hnm
            have hc26 : c ≠ 0x1A := by
              intro hc
              apply hnm
              rw [hc]
              exact List.mem_cons_self _ _
            exact absurd hsc (hne26 hc26)
          · intro _
            constructor
            · show st.pos + r.consumed = st.pos + (c :: rest).length
              have hc2 : (c :: rest).length = rest.length + 1 := rfl
              omega
            · rfl
          · intro u hu hut
            exact absurd hut (hnoInt' u hu)
          · rintro _ ⟨u, hu, hut⟩
            exact absurd hut (hnoInt' u hu)
        · have hraw := hnsauce hsc
          have hinv' : st.pos + r.consumed =
              sumRaw (st.tokens ++ [r.tok]) + sauceCount (st.tokens ++ [r.tok]) := by
            rw [sumRaw_concat, sauceCount_concat, if_neg hsc]
            omega
          obtain ⟨ih1, ih2, ih3, ih4, ih5⟩ :=
            ih ((c :: rest).drop r.consumed)
              { tokens := st.tokens ++ [r.tok], pos := st.pos + r.consumed,
                runePos := r.newRunePos, posFirstBad := st.posFirstBad }
              (tokenizeLoop fuel ((c :: rest).drop r.consumed)
                { tokens := st.tokens ++ [r.tok], pos := st.pos + r.consumed,
                  runePos := r.newRunePos, posFirstBad := st.posFirstBad })
              rfl hlen2 hnoInt' hinv'
          refine ⟨ih1, ?_, ?_, ih4, ?_⟩
          · intro hnm
            have hnm' : (0x1A : Nat) ∉ (c :: rest).drop r.consumed :=
              fun hmem => hnm (List.mem_of_mem_drop hmem)
            rw [ih2 hnm', sauceCount_concat, if_neg hsc]
            rfl
          · intro hni
            obtain ⟨ha, hb⟩ := ih3 hni
            constructor
            · rw [ha]
              show st.pos + r.consumed + ((c :: rest).drop r.consumed).length =
                st.pos + (c :: rest).length
              rw [List.length_drop]
              have hc2 : (c :: rest).length = rest.length + 1 := rfl
              omega
            · exact hb
          · intro hns hex
            refine ih5 ?_ hex
            intro t ht
            rcases List.mem_append.mp ht with h1 | h1
            · exact hns t h1
            · have htr : t = r.tok := by simpa using h1
              subst htr
              exact hsc

theorem Tokenize_fst (input : List Nat) :
    (Tokenize input).1 = (tokenizeLoop input.length input {}).tokens := by
  simp only [Tokenize]
  split <;> rfl

theorem Tokenize_snd_halted (input : List Nat) (t : Token)
    (hlast : (tokenizeLoop input.length input {}).tokens.getLast? = some t)
    (ht : t.type = TokenType.TokenCSIInterupted) :
    (Tokenize input).2 =
      { fileSize := input.length
        parsedPercent := ((tokenizeLoop input.length input {}).posFirstBad : ℚ) /
          (input.length : ℚ) * 100
        posFirstBadSequence := (tokenizeLoop input.length input {}).posFirstBad } := by
  simp only [Tokenize]
  rw [hlast]
  simp [ht]

/-- C7.  If a `CSIInterupted` token appears in the output (as happens when
a CSI sequence is cut off by a C0 byte before its final byte), it is the
last token: the loop halted right after appending it.  The recorded
`posFirstBadSequence` equals the total byte length of the raw fields — the
byte position reached — and `parsedPercent` is that position divided by the
file size times 100.  The result is an ordinary value (the embedding is
total): a partial token list plus statistics, not an error. -/
theorem claim_C7 (input : List Nat) (t : Token)
    (hmem : t ∈ (Tokenize input).1) (htype : t.type = TokenType.TokenCSIInterupted) :
    (Tokenize input).1.getLast? = some t ∧
    (Tokenize input).2.posFirstBadSequence = sumRaw (Tokenize input).1 ∧
    (Tokenize input).2.parsedPercent =
      ((Tokenize input).2.posFirstBadSequence : ℚ) /
        ((Tokenize input).2.fileSize : ℚ) * 100 := by
  obtain ⟨h1, h2, h3, h4, h5⟩ :=
    tokenizeLoop_spec input.length input {} (tokenizeLoop input.length input {}) rfl
      (le_refl _) (fun u hu => absurd hu (List.not_mem_nil u)) rfl
  have hmem' : t ∈ (tokenizeLoop input.length input {}).tokens := by
    rw [← Tokenize_fst]
    exact hmem
  obtain ⟨hlast, hpfb⟩ := h4 t hmem' htype
  have hnos : ∀ v ∈ (tokenizeLoop input.length input {}).tokens,
      v.type ≠ TokenType.TokenSauce :=
    h5 (fun v hv => absurd hv (List.not_mem_nil v)) ⟨t, hmem', htype⟩
  have hzero : sauceCount (tokenizeLoop input.length input {}).tokens = 0 :=
    sauceCount_eq_zero _ hnos
  have hsnd := Tokenize_snd_halted input t hlast htype
  refine ⟨?_, ?_, ?_⟩
  · rw [Tokenize_fst]
    exact hlast
  · rw [hsnd, Tokenize_fst]
    show (tokenizeLoop input.length input {}).posFirstBad =
      sumRaw (tokenizeLoop input.length input {}).tokens
    rw [hpfb]
    omega
  · rw [hsnd]

/-- Witness for C7: `ESC [ 5 LF` produces a single interrupted CSI token. -/
theorem claim_C7_witness :
    ({ type := TokenType.TokenCSIInterupted, raw := [27, 91, 53, 10],
       parameters := [[53]] } : Token) ∈ (Tokenize [27, 91, 53, 10]).1 ∧
    (Tokenize [27, 91, 53, 10]).1.getLast? =
      some { type := TokenType.TokenCSIInterupted, raw := [27, 91, 53, 10],
             parameters := [[53]] } ∧
    (Tokenize [27, 91, 53, 10]).2.posFirstBadSequence =
      sumRaw (Tokenize [27, 91, 53, 10]).1 ∧
    (Tokenize [27, 91, 53, 10]).2.parsedPercent =
      ((Tokenize [27, 91, 53, 10]).2.posFirstBadSequence : ℚ) /
        ((Tokenize [27, 91, 53, 10]).2.fileSize : ℚ) * 100 :=
  ⟨by decide,
   (claim_C7 [27, 91, 53, 10]
     { type := TokenType.TokenCSIInterupted, raw := [27, 91, 53, 10],
       parameters := [[53]] } (by decide) (by decide)).1,
   (claim_C7 [27, 91, 53, 10]
     { type := TokenType.TokenCSIInterupted, raw := [27, 91, 53, 10],
       parameters := [[53]] } (by decide) (by decide)).2.1,
   (claim_C7 [27, 91, 53, 10]
     { type := TokenType.TokenCSIInterupted, raw := [27, 91, 53, 10],
       parameters := [[53]] } (by decide) (by decide)).2.2⟩

/-- C8, amended claim.  The raw fields of the tokens reconstruct the input
exactly — `sum(len(raw)) = len(input)` — for inputs without `0x1A` whose
tokenization runs to completion (no `CSIInterupted` token).  The original
claim asserted this for every `0x1A`-free input including interrupted ones;
the counterexample shows an interrupted tokenization stops early and leaves
trailing bytes uncovered. -/
theorem claim_C8_amended (input : List Nat) (hno : (0x1A : Nat) ∉ input)
    (hni : ∀ t ∈ (Tokenize input).1, t.type ≠ TokenType.TokenCSIInterupted) :
    sumRaw (Tokenize input).1 = input.length := by
  obtain ⟨h1, h2, h3, _, _⟩ :=
    tokenizeLoop_spec input.length input {} (tokenizeLoop input.length input {}) rfl
      (le_refl _) (fun u hu => absurd hu (List.not_mem_nil u)) rfl
  have hni' : ∀ t ∈ (tokenizeLoop input.length input {}).tokens,
      t.type ≠ TokenType.TokenCSIInterupted := by
    rw [← Tokenize_fst]
    exact hni
  obtain ⟨hpos, _⟩ := h3 hni'
  have hsc := h2 hno
  have hsc0 : sauceCount (({} : TokState).tokens) = 0 := rfl
  have hp0 : ({} : TokState).pos = 0 := rfl
  rw [Tokenize_fst]
  omega

/-- Witness for the amended C8 on the plain-text input `AB`. -/
theorem claim_C8_witness :
    (0x1A : Nat) ∉ ([65, 66] : List Nat) ∧
    (∀ t ∈ (Tokenize [65, 66]).1, t.type ≠ TokenType.TokenCSIInterupted) ∧
    sumRaw (Tokenize [65, 66]).1 = ([65, 66] : List Nat).length :=
  ⟨by decide, by decide, claim_C8_amended [65, 66] (by decide) (by decide)⟩

end Splitans
